import Mathlib

/-!
# Verification of the purchase-ledger and derived-analytics engine

A shallow embedding of the shopping-ledger store (`src/store/useShoppingStore.ts`):
the persisted `Ledger` state, the mutation layer (`createList`, `updateList`,
`deleteList`, `updateItem`, `addItemFromSuggestion`, `addOcrPurchase`, the vendor
operations, `updateMasterItem`, `importData`) and the derived engines
(`getAllKnownItems`, `getLatestPurchaseInfo`, `getSmartSuggestions`,
`getExpenseForecast`, `getSummaryData`).

Modelling conventions:
* JavaScript numbers are modelled as `ℚ` (prices, quantities) — the source never
  relies on floating-point artefacts for the properties considered here.
* Timestamps (`Date.getTime()` values, `createdAt` ISO strings) are modelled as
  `Int` milliseconds since the Unix epoch; `new Date(0)` is `0`.
* `Date.now()` and `new Date()` (the current instant) are nondeterministic inputs
  of the source; the corresponding embedded functions take them as explicit
  `now`/`today` parameters.
* JavaScript `Map`s and plain objects used as dictionaries are modelled as
  association lists in insertion order (`Map.set` / `obj[k] = v` keeps the
  position of an existing key and appends a fresh key, which is exactly what
  `upsert` below implements).
* `Array.prototype.sort` with a comparator is stable (ES2019); it is modelled by
  `List.insertionSort`, which is stable and sorted for the corresponding total
  preorder, hence produces the same list.
* The final locale-aware (`localeCompare(..., 'fa')`) name sort applied by
  `getAllKnownItems` / `getKnownItemNames` is a permutation of the result that no
  claim depends on; `getAllKnownItems` is embedded up to that permutation.
* Fallible external primitives that the spec treats as given (`parseJalaliDate`,
  `toJalaliDateString`, translation strings, the built-in category enumeration,
  the members of the `Unit` enum — all living in files absent from `src/`) are
  modelled from the spec; each such definition is marked in its doc comment.
-/

namespace Shopping

/-! ## Generic helpers: JS arithmetic, truthiness, insertion-ordered maps -/

/-- One day in milliseconds (`24 * 60 * 60 * 1000` in the source). -/
def oneDay : Int := 86400000

/-- JavaScript `Math.round`: round half toward positive infinity,
`Math.round q = ⌊q + 1/2⌋`, computed on the numerator/denominator. -/
def jsRound (q : ℚ) : Int := Int.fdiv (2 * q.num + (q.den : Int)) (2 * (q.den : Int))

/-- `Math.abs((t2 - t1) / oneDay)` for integer millisecond timestamps. -/
def absDays (t2 t1 : Int) : ℚ := (((t2 - t1).natAbs : Nat) : ℚ) / (oneDay : ℚ)

/-- JS `x || d` for an optional number `x` (both `undefined`/`null` and `0` are
falsy). -/
def qOr (o : Option ℚ) (d : ℚ) : ℚ :=
  match o with
  | none => d
  | some x => if x = 0 then d else x

/-- JS truthiness of an optional number (`undefined`, `null` and `0` are falsy). -/
def qTruthy (o : Option ℚ) : Bool :=
  match o with
  | none => false
  | some x => decide (x ≠ 0)

/-- JS truthiness of an optional string (`undefined`, `null` and `""` are falsy). -/
def sTruthy (o : Option String) : Bool :=
  match o with
  | none => false
  | some x => decide (x ≠ "")

/-- Insertion-ordered map update, the semantics of JS `Map.set` (and of
`obj[k] = v` on plain objects): an existing key keeps its position, a fresh key
is appended at the end.  `f` receives the previous value, if any. -/
def upsert {β : Type} (k : String) (f : Option β → β) : List (String × β) → List (String × β)
  | [] => [(k, f none)]
  | (k₂, v) :: rest => if k₂ = k then (k, f (some v)) :: rest else (k₂, v) :: upsert k f rest

/-- Insertion-ordered map lookup (JS `Map.get` / property read). -/
def alookup {β : Type} (k : String) : List (String × β) → Option β
  | [] => none
  | (k₂, v) :: rest => if k₂ = k then some v else alookup k rest

/-- JS `delete obj[k]`. -/
def aerase {β : Type} (k : String) (m : List (String × β)) : List (String × β) :=
  m.filter (fun e => decide (e.1 ≠ k))

/-- `[...new Set(xs)]`: deduplicate keeping the first occurrence of each element. -/
def jsSetDedupAux (seen : List String) : List String → List String
  | [] => []
  | x :: xs => if x ∈ seen then jsSetDedupAux seen xs else x :: jsSetDedupAux (x :: seen) xs

/-- `[...new Set(xs)]` (first-occurrence order). -/
def jsSetDedup (xs : List String) : List String := jsSetDedupAux [] xs

/-- Whitespace characters removed by JS `String.prototype.trim` (the common ones). -/
def isWS (c : Char) : Bool := c = ' ' || c = '\t' || c = '\n' || c = '\r'

/-- JS `String.prototype.trim`. -/
def jsTrim (s : String) : String :=
  ⟨((s.data.dropWhile isWS).reverse.dropWhile isWS).reverse⟩

/-- JS `String.prototype.toLowerCase` (ASCII range, enough for vendor matching). -/
def jsLower (s : String) : String :=
  ⟨s.data.map (fun c => if 'A' ≤ c ∧ c ≤ 'Z' then Char.ofNat (c.toNat + 32) else c)⟩

/-! ## Modelled external primitives (files absent from `src/`) -/

/-- Modelled from the spec: `toJalaliDateString` (`src/lib/jalali`, absent from
`src/`).  The spec treats calendar conversion as a given primitive; the list id
is "a calendar-date-derived string, unique per calendar day", i.e. the formatter
is date-only granular.  We model the composite
`toJalaliDateString(date.toISOString())` as the (UTC) day number rendered as a
string. -/
def toJalaliDateString (ms : Int) : String := toString (ms.fdiv oneDay)

/-- Modelled from the spec: the `{ format: 'long' }` variant of the formatter,
used only to build a display label. -/
def toJalaliDateStringLong (ms : Int) : String := "long-" ++ toString (ms.fdiv oneDay)

/-- Digit-string to number (`none` on a non-digit or empty string). -/
def digitsVal (cs : List Char) : Option Nat :=
  match cs with
  | [] => none
  | _ =>
    cs.foldl
      (fun acc c =>
        match acc with
        | none => none
        | some n => if c.isDigit then some (n * 10 + (c.toNat - 48)) else none)
      (some 0)

/-- Split a character list at every `/` (model of `split('/')`). -/
def splitSlash : List Char → List (List Char)
  | [] => [[]]
  | c :: rest =>
    let r := splitSlash rest
    if c = '/' then [] :: r
    else
      match r with
      | h :: t => (c :: h) :: t
      | [] => [[c]]

/-- Modelled from the spec: `parseJalaliDate` (`src/lib/jalali`, absent from
`src/`).  The spec only requires a given primitive that parses a
`YYYY/MM/DD`-shaped Jalali date and fails (`none`) on anything unparseable; the
successful value is a day-granular timestamp. -/
def parseJalaliDate (s : String) : Option Int :=
  match splitSlash s.data with
  | [y, m, d] =>
    match digitsVal y, digitsVal m, digitsVal d with
    | some a, some b, some c => some ((((a * 372 + b * 31 + c : Nat)) : Int) * oneDay)
    | _, _, _ => none
  | _ => none

/-- Modelled from the spec: the translation string `t.todaysShoppingList`
(`src/translations`, absent from `src/`) — a display label formatted from the
long date. -/
def todaysShoppingList (d : String) : String := "shopping-list " ++ d

/-- Modelled from the spec: the translation string `t.other` — the fallback
category name. -/
def otherCategory : String := "other"

/-- Modelled from the spec: `t.suggestionReasonDepleted(cycle, overdue)` — the
user-facing reason attached to a depleted restock suggestion. -/
def reasonDepleted (cycle overdue : Int) : String :=
  "depleted " ++ toString cycle ++ " " ++ toString overdue

/-- Modelled from the spec: `t.suggestionReasonGettingLow(cycle)` — the
user-facing reason attached to a getting-low restock suggestion. -/
def reasonGettingLow (cycle : Int) : String := "getting-low " ++ toString cycle

/-- Modelled from the spec: `Object.values(CafeCategory)` — the fixed built-in
category enumeration (`src/types`, absent from `src/`).  The claims only need it
to be some fixed list of names. -/
def DEFAULT_CATEGORIES : List String := ["dairy", "produce", "meat", "beverages", "other"]

/-! ## Data model -/

/-- Modelled from the spec: the `Unit` enumeration (`src/types`, absent from
`src/`).  Its members are fixed measurement-unit names; what matters for the
embedding is that they are nonempty, hyphen-free strings (so that the
`` `${name}-${unit}` `` grouping key of the source is injective). -/
inductive MUnit : Type
  | Piece | Kg | Gram | Liter | Pack | Bottle | Box
deriving DecidableEq

/-- The rendered name of a unit, as interpolated into grouping keys. -/
def unitStr : MUnit → String
  | .Piece => "piece"
  | .Kg => "kg"
  | .Gram => "gram"
  | .Liter => "liter"
  | .Pack => "pack"
  | .Bottle => "bottle"
  | .Box => "box"

/-- `ItemStatus` from `src/types` (referenced as `ItemStatus.Pending/Bought`). -/
inductive ItemStatus : Type
  | Pending | Bought
deriving DecidableEq

/-- `PaymentStatus` from `src/types` (referenced as `PaymentStatus.Due/Paid`). -/
inductive PaymentStatus : Type
  | Due | Paid
deriving DecidableEq

/-- Modelled from the spec: the `PaymentMethod` enumeration (`src/types`, absent
from `src/`); its members are opaque to the store logic. -/
inductive PaymentMethod : Type
  | Cash | Card
deriving DecidableEq

/-- `ShoppingItem` (`src/types`): a planned-or-purchased product line. -/
structure ShoppingItem : Type where
  id : String
  name : String
  amount : ℚ
  unit : MUnit
  category : String
  status : ItemStatus
  purchasedAmount : Option ℚ := none
  paidPrice : Option ℚ := none
  paymentStatus : Option PaymentStatus := none
  paymentMethod : Option PaymentMethod := none
  vendorId : Option String := none
  estimatedPrice : Option ℚ := none
  receiptImage : Option String := none
deriving DecidableEq

/-- `ShoppingList` (`src/types`): one calendar day's record.  `createdAt` is the
ISO timestamp, modelled as epoch milliseconds. -/
structure ShoppingList : Type where
  id : String
  name : String
  createdAt : Int
  items : List ShoppingItem
deriving DecidableEq

/-- `Vendor` (`src/types`). -/
structure Vendor : Type where
  id : String
  name : String
deriving DecidableEq

/-- The value type of `itemInfoMap`. -/
structure ItemInfo : Type where
  unit : MUnit
  category : String
deriving DecidableEq

/-- The persisted slice of the store state (`lists`, `customCategories`,
`vendors`, `categoryVendorMap`, `itemInfoMap`) — the spec's **Ledger**. -/
structure Ledger : Type where
  lists : List ShoppingList
  customCategories : List String
  vendors : List Vendor
  categoryVendorMap : List (String × String)
  itemInfoMap : List (String × ItemInfo)
deriving DecidableEq

/-- `emptyState` from the source. -/
def emptyLedger : Ledger :=
  { lists := [], customCategories := [], vendors := [], categoryVendorMap := [], itemInfoMap := [] }

/-- A line of an OCR batch (`OcrResult.items` elements). -/
structure OcrItem : Type where
  name : String
  quantity : ℚ
  price : ℚ
  unit : Option MUnit := none
  suggestedCategory : Option String := none
deriving DecidableEq

/-- `OcrResult`: the receipt batch handed to `addOcrPurchase`. -/
structure OcrResult : Type where
  date : String
  items : List OcrItem
deriving DecidableEq

/-- `SmartSuggestion` (`src/types`); `lastPurchaseDate` is stored as an ISO
string in the source and modelled as the underlying timestamp. -/
structure SmartSuggestion : Type where
  name : String
  unit : MUnit
  category : String
  lastPurchaseDate : Int
  avgPurchaseCycleDays : Int
  reason : String
  priority : String
deriving DecidableEq

/-- `MasterItem` (`src/types`): the derived per-(name, unit) rollup. -/
structure MasterItem : Type where
  name : String
  unit : MUnit
  category : String
  lastPricePerUnit : ℚ
  totalQuantity : ℚ
  totalSpend : ℚ
  purchaseCount : Nat
deriving DecidableEq

/-- The result object of `getLatestPurchaseInfo` (all fields optional; the
absence case is the empty object `{}`). -/
structure PurchaseInfo : Type where
  pricePerUnit : Option ℚ := none
  vendorId : Option String := none
  lastAmount : Option ℚ := none
deriving DecidableEq

/-- A denormalized purchase record: an item together with its containing list's
date (the `{...item, purchaseDate: new Date(list.createdAt)}` spread that recurs
across the engines). -/
structure Purchase : Type where
  item : ShoppingItem
  date : Int
deriving DecidableEq

/-- The flat-mapped purchase extraction shared by the engines:
`lists.flatMap(list => list.items.map(item => ({...item, purchaseDate: ...})))`. -/
def purchasesAll (s : Ledger) : List Purchase :=
  s.lists.flatMap (fun l => l.items.map (fun it => ⟨it, l.createdAt⟩))

/-! ## Mutation layer

Each operation is embedded as a pure function on `Ledger` (the source's `set`
calls become state threading; the debounced persistence side effect has no
state-visible footprint and is omitted).  `Date.now()` / `new Date()` become
explicit `now` / `today` parameters. -/

/-- `createList(date)`: derive the day id; return the existing list's id
unchanged if present, otherwise append a fresh empty list. -/
def createList (date : Int) (s : Ledger) : String × Ledger :=
  let listId := toJalaliDateString date
  match s.lists.find? (fun l => decide (l.id = listId)) with
  | some existingList => (existingList.id, s)
  | none =>
    let name := todaysShoppingList (toJalaliDateStringLong date)
    let newList : ShoppingList := { id := listId, name := name, createdAt := date, items := [] }
    (newList.id, { s with lists := s.lists ++ [newList] })

/-- `updateList(listId, updatedList)`: replace the list with that id by the
(arbitrary) `updatedList`; silent no-op when the id is absent. -/
def updateList (listId : String) (updatedList : ShoppingList) (s : Ledger) : Ledger :=
  { s with lists := s.lists.map (fun list => if list.id = listId then updatedList else list) }

/-- `deleteList(listId)`. -/
def deleteList (listId : String) (s : Ledger) : Ledger :=
  { s with lists := s.lists.filter (fun list => decide (list.id ≠ listId)) }

/-- `Partial<ShoppingItem>`: the merge patch taken by `updateItem`.  A present
field overrides the item's field (including overriding an optional field with
an explicit `undefined`, hence the nested `Option`s). -/
structure ItemPatch : Type where
  id : Option String := none
  name : Option String := none
  amount : Option ℚ := none
  unit : Option MUnit := none
  category : Option String := none
  status : Option ItemStatus := none
  purchasedAmount : Option (Option ℚ) := none
  paidPrice : Option (Option ℚ) := none
  paymentStatus : Option (Option PaymentStatus) := none
  paymentMethod : Option (Option PaymentMethod) := none
  vendorId : Option (Option String) := none
  estimatedPrice : Option (Option ℚ) := none
  receiptImage : Option (Option String) := none
deriving DecidableEq

/-- The JS spread `{ ...item, ...updates }`. -/
def applyItemPatch (u : ItemPatch) (it : ShoppingItem) : ShoppingItem :=
  { id := u.id.getD it.id
    name := u.name.getD it.name
    amount := u.amount.getD it.amount
    unit := u.unit.getD it.unit
    category := u.category.getD it.category
    status := u.status.getD it.status
    purchasedAmount := u.purchasedAmount.getD it.purchasedAmount
    paidPrice := u.paidPrice.getD it.paidPrice
    paymentStatus := u.paymentStatus.getD it.paymentStatus
    paymentMethod := u.paymentMethod.getD it.paymentMethod
    vendorId := u.vendorId.getD it.vendorId
    estimatedPrice := u.estimatedPrice.getD it.estimatedPrice
    receiptImage := u.receiptImage.getD it.receiptImage }

/-- `updateItem(listId, itemId, updates)`. -/
def updateItem (listId itemId : String) (updates : ItemPatch) (s : Ledger) : Ledger :=
  { s with
    lists := s.lists.map (fun list =>
      if list.id = listId then
        { list with
          items := list.items.map (fun item =>
            if item.id = itemId then applyItemPatch updates item else item) }
      else list) }

/-- `addVendor(vendorData)`: append a vendor with a time-based id. -/
def addVendor (now : Int) (vendorName : String) (s : Ledger) : String × Ledger :=
  let newVendor : Vendor := { id := "vendor-" ++ toString now, name := vendorName }
  (newVendor.id, { s with vendors := s.vendors ++ [newVendor] })

/-- `Partial<Vendor>` for `updateVendor`. -/
structure VendorPatch : Type where
  id : Option String := none
  name : Option String := none
deriving DecidableEq

/-- `updateVendor(vendorId, updates)`. -/
def updateVendor (vendorId : String) (updates : VendorPatch) (s : Ledger) : Ledger :=
  { s with
    vendors := s.vendors.map (fun v =>
      if v.id = vendorId then { id := updates.id.getD v.id, name := updates.name.getD v.name }
      else v) }

/-- `deleteVendor(vendorId)`: remove the vendor and null out the weak
`vendorId` reference on every item that pointed to it. -/
def deleteVendor (vendorId : String) (s : Ledger) : Ledger :=
  { s with
    vendors := s.vendors.filter (fun v => decide (v.id ≠ vendorId))
    lists := s.lists.map (fun list =>
      { list with
        items := list.items.map (fun item =>
          if item.vendorId = some vendorId then { item with vendorId := none } else item) }) }

/-- `findOrCreateVendor(vendorName?)`: blank name → `undefined`; otherwise a
case-insensitive trimmed match, creating the vendor when no match exists. -/
def findOrCreateVendor (now : Int) (vendorName : Option String) (s : Ledger) :
    Option String × Ledger :=
  if !sTruthy vendorName || !sTruthy (some (jsTrim (vendorName.getD ""))) then (none, s)
  else
    let trimmedName := jsTrim (vendorName.getD "")
    match s.vendors.find? (fun v => decide (jsLower v.name = jsLower trimmedName)) with
    | some existingVendor => (some existingVendor.id, s)
    | none =>
      let r := addVendor now trimmedName s
      (some r.1, r.2)

/-- `updateCategoryVendorMap(category, vendorId)` (most-recent-write-wins). -/
def updateCategoryVendorMap (category vendorId : String) (s : Ledger) : Ledger :=
  { s with categoryVendorMap := upsert category (fun _ => vendorId) s.categoryVendorMap }

/-- `allCategories()`: built-in enumeration ∪ custom categories, deduplicated. -/
def allCategories (s : Ledger) : List String :=
  jsSetDedup (DEFAULT_CATEGORIES ++ s.customCategories)

/-- `addCustomData(item)`: fold a new item's category into `customCategories`
and its (trimmed name ↦ unit, category) into `itemInfoMap`. -/
def addCustomData (item : ShoppingItem) (s : Ledger) : Ledger :=
  let s₁ :=
    if item.category ≠ "" ∧ item.category ∉ allCategories s then
      { s with customCategories := s.customCategories ++ [item.category] }
    else s
  if item.name ≠ "" ∧ item.category ≠ "" then
    { s₁ with itemInfoMap := upsert (jsTrim item.name) (fun _ => ⟨item.unit, item.category⟩) s₁.itemInfoMap }
  else s₁

/-- `updateMasterItem(originalName, originalUnit, updates)`: rewrite every
historical item matching the original (name, unit) pair and repoint
`itemInfoMap`. -/
def updateMasterItem (originalName : String) (originalUnit : MUnit)
    (updName : String) (updUnit : MUnit) (updCategory : String) (s : Ledger) : Ledger :=
  let newLists := s.lists.map (fun list =>
    { list with
      items := list.items.map (fun item =>
        if item.name = originalName ∧ item.unit = originalUnit then
          { item with name := updName, unit := updUnit, category := updCategory }
        else item) })
  let m₁ :=
    if originalName ≠ updName ∧ (alookup originalName s.itemInfoMap).isSome then
      aerase originalName s.itemInfoMap
    else s.itemInfoMap
  { s with lists := newLists, itemInfoMap := upsert updName (fun _ => ⟨updUnit, updCategory⟩) m₁ }

/-- `importData(jsonData)` after the JSON decoding step: the decoded payload has
the shape of the persisted `Ledger` (the `|| []` / `|| {}` defaulting of missing
fields is absorbed into the payload), every item's `receiptImage` field is
cleansed, and the state is replaced wholesale.  The string-level `JSON.parse`
and its `InvalidFormatError` path never reach `set` and are outside the claims
considered here. -/
def importDataApply (payload : Ledger) (s : Ledger) : Ledger :=
  let _ := s
  { lists := payload.lists.map (fun list =>
      { list with items := list.items.map (fun item => { item with receiptImage := none }) })
    customCategories := payload.customCategories
    vendors := payload.vendors
    categoryVendorMap := payload.categoryVendorMap
    itemInfoMap := payload.itemInfoMap }

/-! ## Sorting relations (the comparators passed to `Array.prototype.sort`) -/

/-- Ascending by purchase date: `(a, b) => a.getTime() - b.getTime()`. -/
def dateAsc : Purchase → Purchase → Prop := fun p q => p.date ≤ q.date

instance : DecidableRel dateAsc := fun p q => inferInstanceAs (Decidable (p.date ≤ q.date))

instance : IsTotal Purchase dateAsc := ⟨fun p q => Int.le_total p.date q.date⟩

instance : IsTrans Purchase dateAsc := ⟨fun _ _ _ h₁ h₂ => le_trans h₁ h₂⟩

/-- Descending by purchase date: `(a, b) => b.getTime() - a.getTime()`. -/
def dateDesc : Purchase → Purchase → Prop := fun p q => q.date ≤ p.date

instance : DecidableRel dateDesc := fun p q => inferInstanceAs (Decidable (q.date ≤ p.date))

instance : IsTotal Purchase dateDesc := ⟨fun p q => Int.le_total q.date p.date⟩

instance : IsTrans Purchase dateDesc := ⟨fun _ _ _ h₁ h₂ => le_trans h₂ h₁⟩

/-- Lexicographic (code-unit) string comparison, the behaviour of
`localeCompare` on the ASCII priority labels. -/
def lexLeChars : List Char → List Char → Bool
  | [], _ => true
  | _ :: _, [] => false
  | a :: as, b :: bs => if a < b then true else if b < a then false else lexLeChars as bs

/-- `a ≤ b` on strings by code units. -/
def strLe (a b : String) : Bool := lexLeChars a.data b.data

theorem lexLeChars_total : ∀ as bs, lexLeChars as bs = true ∨ lexLeChars bs as = true := by
  intro as
  induction as with
  | nil => intro bs; exact Or.inl rfl
  | cons a as ih =>
    intro bs
    cases bs with
    | nil => exact Or.inr rfl
    | cons b bs =>
      by_cases hab : a < b
      · exact Or.inl (by simp [lexLeChars, hab])
      · by_cases hba : b < a
        · exact Or.inr (by simp [lexLeChars, hba])
        · rcases ih bs with h | h
          · exact Or.inl (by simp [lexLeChars, hab, hba, h])
          · exact Or.inr (by simp [lexLeChars, hab, hba, h])

theorem lexLeChars_trans :
    ∀ as bs cs, lexLeChars as bs = true → lexLeChars bs cs = true →
      lexLeChars as cs = true := by
  intro as
  induction as with
  | nil => intro bs cs _ _; rfl
  | cons a as ih =>
    intro bs cs h₁ h₂
    cases bs with
    | nil => simp [lexLeChars] at h₁
    | cons b bs =>
      cases cs with
      | nil => simp [lexLeChars] at h₂
      | cons c cs =>
        simp only [lexLeChars] at h₁ h₂ ⊢
        by_cases hab : a < b
        · have hbc : b < c ∨ (¬b < c ∧ ¬c < b) := by
            by_cases h : b < c
            · exact Or.inl h
            · refine Or.inr ⟨h, ?_⟩
              intro hcb
              simp [h, hcb] at h₂
          rcases hbc with hbc | ⟨hbc, hcb⟩
          · have hac : a < c := lt_trans hab hbc
            simp [hac]
          · have hbc₂ : b = c := le_antisymm (not_lt.mp hcb) (not_lt.mp hbc)
            subst hbc₂
            simp [hab]
        · by_cases hba : b < a
          · simp [hab, hba] at h₁
          · have hab₂ : a = b := le_antisymm (not_lt.mp hba) (not_lt.mp hab)
            subst hab₂
            by_cases hac : a < c
            · simp [hac]
            · by_cases hca : c < a
              · simp [hac, hca] at h₂
              · simp only [hac, hca, if_neg, not_false_iff, if_false]
                simp only [hac, hca, if_neg, not_false_iff, if_false] at h₂
                simp only [hab] at h₁
                exact ih bs cs (by simpa using h₁) h₂

/-- Descending lexical by priority label:
`(a, b) => b.priority.localeCompare(a.priority)` (`localeCompare` modelled by
code-unit comparison, which agrees with it on the ASCII labels). -/
def prioDesc : SmartSuggestion → SmartSuggestion → Prop :=
  fun a b => strLe b.priority a.priority = true

instance : DecidableRel prioDesc :=
  fun a b => inferInstanceAs (Decidable (strLe b.priority a.priority = true))

instance : IsTotal SmartSuggestion prioDesc :=
  ⟨fun a b => lexLeChars_total b.priority.data a.priority.data⟩

instance : IsTrans SmartSuggestion prioDesc :=
  ⟨fun _ _ _ h₁ h₂ => lexLeChars_trans _ _ _ h₂ h₁⟩

/-- Descending by summed spend: `(a, b) => b[1] - a[1]` on map entries. -/
def valDesc : (String × ℚ) → (String × ℚ) → Prop := fun a b => b.2 ≤ a.2

instance : DecidableRel valDesc := fun a b => inferInstanceAs (Decidable (b.2 ≤ a.2))

instance : IsTotal (String × ℚ) valDesc := ⟨fun a b => le_total b.2 a.2⟩

instance : IsTrans (String × ℚ) valDesc := ⟨fun _ _ _ h₁ h₂ => le_trans h₂ h₁⟩

/-! ## Qualification filters of the engines -/

/-- `getAllKnownItems` filter: Bought with `purchasedAmount != null` and
`paidPrice != null` (zero qualifies). -/
def boughtBoth (p : Purchase) : Bool :=
  decide (p.item.status = ItemStatus.Bought) && p.item.purchasedAmount.isSome
    && p.item.paidPrice.isSome

/-- `getSmartSuggestions` filter: Bought with a truthy `purchasedAmount`. -/
def qualQty (p : Purchase) : Bool :=
  decide (p.item.status = ItemStatus.Bought) && qTruthy p.item.purchasedAmount

/-- `getExpenseForecast` filter: Bought with a truthy `paidPrice`. -/
def qualPrice (p : Purchase) : Bool :=
  decide (p.item.status = ItemStatus.Bought) && qTruthy p.item.paidPrice

/-- `getSummaryData` filter: Bought with `paidPrice != null` (zero qualifies). -/
def qualSummary (p : Purchase) : Bool :=
  decide (p.item.status = ItemStatus.Bought) && p.item.paidPrice.isSome

/-- `getLatestPurchaseInfo` filter: matching (name, unit), Bought, with truthy
price and quantity. -/
def qualLatest (name : String) (unit : MUnit) (p : Purchase) : Bool :=
  decide (p.item.name = name) && decide (p.item.unit = unit)
    && decide (p.item.status = ItemStatus.Bought) && qTruthy p.item.paidPrice
    && qTruthy p.item.purchasedAmount

/-- The grouping key `` `${item.name}-${item.unit}` ``. -/
def keyOf (p : Purchase) : String := p.item.name ++ "-" ++ unitStr p.item.unit

/-! ## Aggregator: `getAllKnownItems`, `getLatestPurchaseInfo` -/

/-- The running per-group statistics (`MasterItem & { latestPurchaseDate }`). -/
structure ItemStats : Type where
  name : String
  unit : MUnit
  category : String
  lastPricePerUnit : ℚ
  totalQuantity : ℚ
  totalSpend : ℚ
  purchaseCount : Nat
  latestPurchaseDate : Int
deriving DecidableEq

/-- Dropping the scratch `latestPurchaseDate` field. -/
def ItemStats.toMasterItem (st : ItemStats) : MasterItem :=
  { name := st.name, unit := st.unit, category := st.category
    lastPricePerUnit := st.lastPricePerUnit, totalQuantity := st.totalQuantity
    totalSpend := st.totalSpend, purchaseCount := st.purchaseCount }

/-- One scan step of `getAllKnownItems`: create the group on first sight
(`latestPurchaseDate` starts at `new Date(0)`), accumulate the running sums and
count, and refresh `lastPricePerUnit` / `category` on a `>=`-dated purchase. -/
def updStats (p : Purchase) (prev : Option ItemStats) : ItemStats :=
  let cur := prev.getD
    { name := p.item.name, unit := p.item.unit, category := p.item.category
      lastPricePerUnit := 0, totalQuantity := 0, totalSpend := 0, purchaseCount := 0
      latestPurchaseDate := 0 }
  let cur :=
    { cur with
      totalQuantity := cur.totalQuantity + qOr p.item.purchasedAmount 0
      totalSpend := cur.totalSpend + qOr p.item.paidPrice 0
      purchaseCount := cur.purchaseCount + 1 }
  if cur.latestPurchaseDate ≤ p.date then
    { cur with
      latestPurchaseDate := p.date
      lastPricePerUnit := qOr p.item.paidPrice 0 / qOr p.item.purchasedAmount 1
      category := p.item.category }
  else cur

/-- The `itemStats` map of `getAllKnownItems` (insertion order). -/
def itemStats (s : Ledger) : List (String × ItemStats) :=
  ((purchasesAll s).filter boughtBoth).foldl (fun m p => upsert (keyOf p) (updStats p) m) []

/-- `getAllKnownItems()` up to the final locale-aware name sort (a permutation
the claims do not depend on). -/
def getAllKnownItems (s : Ledger) : List MasterItem :=
  (itemStats s).map (fun e => e.2.toMasterItem)

/-- `getLatestPurchaseInfo(name, unit)`: max-date qualifying purchase (stable
descending sort, first element) or the empty result object. -/
def getLatestPurchaseInfo (name : String) (unit : MUnit) (s : Ledger) : PurchaseInfo :=
  match List.insertionSort dateDesc ((purchasesAll s).filter (qualLatest name unit)) with
  | [] => {}
  | latest :: _ =>
    { pricePerUnit := some (latest.item.paidPrice.getD 0 / latest.item.purchasedAmount.getD 0)
      vendorId := latest.item.vendorId
      lastAmount := latest.item.purchasedAmount }

/-! ## Remaining mutation operations (they consume the aggregator) -/

/-- `addItemFromSuggestion(suggestion)`: ensure today's list, reject a duplicate
Pending (name, unit), otherwise insert a Pending item seeded from the latest
purchase info. -/
def addItemFromSuggestion (now today : Int) (sug : SmartSuggestion) (s : Ledger) :
    Bool × Ledger :=
  let today0 := today.fdiv oneDay * oneDay
  let cl := createList today0 s
  let listId := cl.1
  let s₁ := cl.2
  let list := (s₁.lists.find? (fun l => decide (l.id = listId))).getD
    { id := listId, name := "", createdAt := today0, items := [] }
  if list.items.any (fun item =>
      decide (item.name = sug.name) && decide (item.unit = sug.unit)
        && decide (item.status = ItemStatus.Pending)) then
    (false, s₁)
  else
    let latestInfo := getLatestPurchaseInfo sug.name sug.unit s₁
    let newItem : ShoppingItem :=
      { id := "item-" ++ toString now
        name := sug.name
        amount := qOr latestInfo.lastAmount 1
        unit := sug.unit
        category := sug.category
        status := ItemStatus.Pending
        estimatedPrice :=
          if qTruthy latestInfo.pricePerUnit then
            some (latestInfo.pricePerUnit.getD 0 * qOr latestInfo.lastAmount 1)
          else none }
    (true, updateList listId { list with items := list.items ++ [newItem] } s₁)

/-- `addOcrPurchase(ocrResult, paymentMethod, paymentStatus, vendorName?)`.
Note the source resolves/creates the vendor *before* parsing the batch date. -/
def addOcrPurchase (now : Int) (ocr : OcrResult) (paymentMethod : PaymentMethod)
    (paymentStatus : PaymentStatus) (vendorName : Option String) (s : Ledger) :
    String × Ledger :=
  let fv := findOrCreateVendor now vendorName s
  let vendorId := fv.1
  let s₁ := fv.2
  match parseJalaliDate ocr.date with
  | none => ("Invalid Date", s₁)
  | some parsedDate =>
    let cl := createList parsedDate s₁
    let targetListId := cl.1
    let s₂ := cl.2
    let targetList := (s₂.lists.find? (fun l => decide (l.id = targetListId))).getD
      { id := targetListId, name := "", createdAt := parsedDate, items := [] }
    let newShoppingItems : List ShoppingItem := ocr.items.enum.map (fun e =>
      { id := "item-" ++ toString now ++ "-" ++ toString e.1
        name := e.2.name
        amount := e.2.quantity
        unit := e.2.unit.getD MUnit.Piece
        status := ItemStatus.Bought
        category :=
          match e.2.suggestedCategory with
          | some c => if c = "" then otherCategory else c
          | none => otherCategory
        paidPrice := some e.2.price
        purchasedAmount := some e.2.quantity
        paymentStatus := some paymentStatus
        paymentMethod := some paymentMethod
        vendorId := vendorId })
    let s₃ := newShoppingItems.foldl (fun st item =>
        let st₁ := addCustomData item st
        if item.category ≠ "" ∧ sTruthy vendorId then
          updateCategoryVendorMap item.category (vendorId.getD "") st₁
        else st₁) s₂
    let s₄ := updateList targetListId { targetList with items := targetList.items ++ newShoppingItems } s₃
    (targetList.name, s₄)

/-! ## Suggestion engine -/

/-- A per-key entry of the `itemHistory` map. -/
structure HistEntry : Type where
  dates : List Int
  name : String
  unit : MUnit
  category : String
deriving DecidableEq

/-- One scan step of the history grouping: create the entry from the first
purchase seen, then push the purchase date. -/
def histUpd (p : Purchase) (prev : Option HistEntry) : HistEntry :=
  match prev with
  | none => { dates := [p.date], name := p.item.name, unit := p.item.unit, category := p.item.category }
  | some h => { h with dates := h.dates ++ [p.date] }

/-- The `itemHistory` map: qualifying purchases sorted ascending by date, then
grouped by key in insertion order. -/
def itemHistory (s : Ledger) : List (String × HistEntry) :=
  (List.insertionSort dateAsc ((purchasesAll s).filter qualQty)).foldl
    (fun m p => upsert (keyOf p) (histUpd p) m) []

/-- The consecutive whole-day gaps of a purchase-date sequence. -/
def diffsOf (ds : List Int) : List Int :=
  (ds.zip ds.tail).map (fun ab => jsRound (absDays ab.2 ab.1))

/-- The inferred restock cycle: the gaps averaged, rounded to nearest. -/
def cycleOf (ds : List Int) : Int :=
  jsRound ((((diffsOf ds).foldl (· + ·) 0 : Int) : ℚ) / (((diffsOf ds).length : Nat) : ℚ))

/-- Whole days elapsed since the last date of the sequence. -/
def elapsedOf (today : Int) (ds : List Int) : Int :=
  jsRound (absDays today (ds.getLastD 0))

/-- The per-entry classification of `getSmartSuggestions`: fewer than two data
points or a zero cycle disables the item; otherwise depleted at
`elapsed ≥ cycle` (`high` beyond 3 overdue days, else `medium`) and getting-low
at `elapsed ≥ 0.75 · cycle`. -/
def suggestionFor (today : Int) (h : HistEntry) : Option SmartSuggestion :=
  if h.dates.length < 2 then none
  else
    let avgCycle := cycleOf h.dates
    if avgCycle = 0 then none
    else
      let lastPurchaseDate := h.dates.getLastD 0
      let daysSinceLastPurchase := elapsedOf today h.dates
      if avgCycle ≤ daysSinceLastPurchase then
        let daysOverdue := daysSinceLastPurchase - avgCycle
        some
          { name := h.name, unit := h.unit, category := h.category
            lastPurchaseDate := lastPurchaseDate, avgPurchaseCycleDays := avgCycle
            reason := reasonDepleted avgCycle daysOverdue
            priority := if 3 < daysOverdue then "high" else "medium" }
      else if (avgCycle : ℚ) * (3 / 4 : ℚ) ≤ (daysSinceLastPurchase : ℚ) then
        some
          { name := h.name, unit := h.unit, category := h.category
            lastPurchaseDate := lastPurchaseDate, avgPurchaseCycleDays := avgCycle
            reason := reasonGettingLow avgCycle
            priority := "low" }
      else none

/-- `getSmartSuggestions()`: classify every history entry, then sort by the
priority label in descending plain-string order. -/
def getSmartSuggestions (today : Int) (s : Ledger) : List SmartSuggestion :=
  List.insertionSort prioDesc ((itemHistory s).filterMap (fun e => suggestionFor today e.2))

/-! ## Forecast engine -/

/-- The result of `getExpenseForecast`. -/
structure Forecast : Type where
  daily : ℚ
  monthly : ℚ
deriving DecidableEq

/-- `getExpenseForecast()`: needs ≥ 5 priced purchases spanning ≥ 30 inclusive
days; then the daily rate is total spend over the span and monthly is 30×. -/
def getExpenseForecast (s : Ledger) : Option Forecast :=
  let allPurchases := (purchasesAll s).filter qualPrice
  if allPurchases.length < 5 then none
  else
    match List.insertionSort dateAsc allPurchases with
    | [] => none
    | x :: xs =>
      let sorted := x :: xs
      let firstDay := x.date
      let lastDay := (sorted.getLast (List.cons_ne_nil x xs)).date
      let totalDays := jsRound (absDays lastDay firstDay) + 1
      if totalDays < 30 then none
      else
        let totalSpend := sorted.foldl (fun sum item => sum + item.item.paidPrice.getD 0) 0
        let daily := totalSpend / (totalDays : ℚ)
        some { daily := daily, monthly := daily * 30 }

/-! ## Summary engine -/

/-- The period tokens accepted by `getSummaryData`. -/
inductive SummaryPeriod : Type
  | d7 | d30 | mtd | ytd | all
deriving DecidableEq

/-- Midnight of the day containing `t` (`setHours(0,0,0,0)`, UTC model of the
JS local-time calendar). -/
def startOfDay (t : Int) : Int := t.fdiv oneDay * oneDay

/-- Gregorian (year, month, day) of a day number — the civil-from-days
computation backing `getFullYear`/`getMonth`, modelling the JS `Date` calendar
primitives at UTC. -/
def civilFromDays (z0 : Int) : Int × Int × Int :=
  let z := z0 + 719468
  let era := z.fdiv 146097
  let doe := z - era * 146097
  let yoe := (doe - doe.fdiv 1460 + doe.fdiv 36524 - doe.fdiv 146096).fdiv 365
  let y := yoe + era * 400
  let doy := doe - (365 * yoe + yoe.fdiv 4 - yoe.fdiv 100)
  let mp := (5 * doy + 2).fdiv 153
  let d := doy - (153 * mp + 2).fdiv 5 + 1
  let m := mp + (if mp < 10 then 3 else -9)
  (y + (if m ≤ 2 then 1 else 0), m, d)

/-- Day number of a Gregorian (year, month, day) — the inverse computation,
backing `new Date(y, m, d)`. -/
def daysFromCivil (y0 m d : Int) : Int :=
  let y := y0 - (if m ≤ 2 then 1 else 0)
  let era := y.fdiv 400
  let yoe := y - era * 400
  let doy := (153 * (m + (if 2 < m then -3 else 9)) + 2).fdiv 5 + d - 1
  let doe := yoe * 365 + yoe.fdiv 4 - yoe.fdiv 100 + doy
  era * 146097 + doe - 719468

/-- Midnight of the first day of the month containing `t`
(`new Date(now.getFullYear(), now.getMonth(), 1)`). -/
def monthStart (t : Int) : Int :=
  let c := civilFromDays (t.fdiv oneDay)
  daysFromCivil c.1 c.2.1 1 * oneDay

/-- Midnight of January 1st of the year containing `t`
(`new Date(now.getFullYear(), 0, 1)`). -/
def yearStart (t : Int) : Int :=
  let c := civilFromDays (t.fdiv oneDay)
  daysFromCivil c.1 1 1 * oneDay

/-- The `[startDate, endDate]` range of `getSummaryData`'s `switch`: the end is
"now" at end-of-day, the start is the period-dependent midnight (all-time
starts at the epoch). -/
def resolvePeriod (period : SummaryPeriod) (now : Int) : Int × Int :=
  let endDate := startOfDay now + oneDay - 1
  let startDate :=
    match period with
    | .d7 => startOfDay now - 6 * oneDay
    | .d30 => startOfDay now - 29 * oneDay
    | .mtd => monthStart now
    | .ytd => yearStart now
    | .all => 0
  (startDate, endDate)

/-- The KPI block of a summary. -/
structure Kpis : Type where
  totalSpend : ℚ
  totalItems : Nat
  avgDailySpend : ℚ
  topCategory : Option (String × ℚ)
  topVendor : Option (String × ℚ)
deriving DecidableEq

/-- A parallel label/value chart series. -/
structure Series : Type where
  labels : List String
  data : List ℚ
deriving DecidableEq

/-- The chart block of a summary. -/
structure Charts : Type where
  spendingOverTime : Series
  spendingByCategory : Series
deriving DecidableEq

/-- The non-null result of `getSummaryData`. -/
structure SummaryData : Type where
  kpis : Kpis
  charts : Charts
  periodStart : Int
  periodEnd : Int
deriving DecidableEq

/-- The seeding loop `for (d = startDate; d <= endDate; d.setDate(d + 1))`,
written with an explicit fuel that bounds the number of iterations. -/
def daysListAux (endDate : Int) : Nat → Int → List Int
  | 0, _ => []
  | fuel + 1, d => if d ≤ endDate then d :: daysListAux endDate fuel (d + oneDay) else []

/-- Every day-start from `startDate` to `endDate` in steps of one day. -/
def daysList (startDate endDate : Int) : List Int :=
  daysListAux endDate (((endDate - startDate).fdiv oneDay + 1).toNat) startDate

/-- Vendor-id resolution `vendorMap.get(id) || "Unknown"`. -/
def vendorNameOf (s : Ledger) (vendorId : String) : String :=
  match s.vendors.find? (fun v => decide (v.id = vendorId)) with
  | some v => if v.name = "" then "Unknown" else v.name
  | none => "Unknown"

/-- `getSummaryData(period)`: windowed KPIs, category/vendor breakdowns and the
pre-seeded daily time series; `none` when no purchase falls in range. -/
def getSummaryData (period : SummaryPeriod) (now : Int) (s : Ledger) : Option SummaryData :=
  let se := resolvePeriod period now
  let startDate := se.1
  let endDate := se.2
  let allPurchases :=
    (s.lists.flatMap (fun list =>
      if startDate ≤ list.createdAt ∧ list.createdAt ≤ endDate then
        list.items.map (fun item => (⟨item, list.createdAt⟩ : Purchase))
      else [])).filter qualSummary
  if allPurchases.length = 0 then none
  else
    let totalSpend := allPurchases.foldl (fun sum item => sum + item.item.paidPrice.getD 0) 0
    let totalItems := (jsSetDedup (allPurchases.map (fun p => p.item.name))).length
    let totalDays : ℚ := max 1 (((endDate - startDate : Int) : ℚ) / ((1000 * 3600 * 24 : Int) : ℚ))
    let avgDailySpend := totalSpend / totalDays
    let categorySpend := allPurchases.foldl
      (fun acc item =>
        upsert item.item.category (fun prev => prev.getD 0 + item.item.paidPrice.getD 0) acc) []
    let sortedCategories := List.insertionSort valDesc categorySpend
    let topCategory := sortedCategories.head?
    let vendorSpend := allPurchases.foldl
      (fun acc item =>
        if sTruthy item.item.vendorId then
          upsert (vendorNameOf s (item.item.vendorId.getD ""))
            (fun prev => prev.getD 0 + item.item.paidPrice.getD 0) acc
        else acc) []
    let topVendor := (List.insertionSort valDesc vendorSpend).head?
    let seeded := (daysList startDate endDate).foldl
      (fun m d => upsert (toJalaliDateString d) (fun _ => (0 : ℚ)) m) []
    let timeMap := allPurchases.foldl
      (fun m item =>
        upsert (toJalaliDateString item.date)
          (fun prev => prev.getD 0 + item.item.paidPrice.getD 0) m) seeded
    some
      { kpis :=
          { totalSpend := totalSpend, totalItems := totalItems
            avgDailySpend := avgDailySpend, topCategory := topCategory, topVendor := topVendor }
        charts :=
          { spendingOverTime := { labels := timeMap.map Prod.fst, data := timeMap.map Prod.snd }
            spendingByCategory :=
              { labels := sortedCategories.map Prod.fst, data := sortedCategories.map Prod.snd } }
        periodStart := startDate, periodEnd := endDate }

/-! ## Specification-side views

Direct per-(name, unit) extractions used to state the claims, to be related to
the key-grouped scans of the engines. -/

/-- Purchases of one (name, unit) pair. -/
def matchNU (name : String) (u : MUnit) (p : Purchase) : Bool :=
  decide (p.item.name = name ∧ p.item.unit = u)

/-- The qualifying purchases of one (name, unit) group for `getAllKnownItems`. -/
def groupOf (name : String) (u : MUnit) (s : Ledger) : List Purchase :=
  ((purchasesAll s).filter boughtBoth).filter (matchNU name u)

/-- The with-quantity purchases of one (name, unit) pair (suggestion engine). -/
def qtyGroupOf (name : String) (u : MUnit) (s : Ledger) : List Purchase :=
  ((purchasesAll s).filter qualQty).filter (matchNU name u)

/-- The purchase dates of one (name, unit) pair, sorted ascending. -/
def sortedDatesOf (name : String) (u : MUnit) (s : Ledger) : List Int :=
  List.insertionSort (· ≤ ·) ((qtyGroupOf name u s).map (fun p => p.date))

/-- One step of the latest-purchase scan (`>=` keeps the newcomer). -/
def latestStep (acc : Option Purchase) (p : Purchase) : Option Purchase :=
  match acc with
  | none => some p
  | some a => if a.date ≤ p.date then some p else some a

/-- The purchase with the latest date, ties broken in favour of the
later-encountered record (a `>=` scan). -/
def latestOf (l : List Purchase) : Option Purchase :=
  l.foldl latestStep none

/-- Sum of `purchasedAmount` over a purchase list. -/
def qtySum (l : List Purchase) : ℚ := (l.map (fun p => p.item.purchasedAmount.getD 0)).sum

/-- Sum of `paidPrice` over a purchase list. -/
def spendSum (l : List Purchase) : ℚ := (l.map (fun p => p.item.paidPrice.getD 0)).sum

/-- The inclusive day span of the forecast, from earliest to latest qualifying
purchase date. -/
def fcSpan (l : List Purchase) : Int :=
  match l.map (fun p => p.date) with
  | [] => 1
  | d :: ds => jsRound (absDays (ds.foldl max d) (ds.foldl min d)) + 1

/-- The total of the daily time series of a summary result (`0` for `none`). -/
def seriesTotal (o : Option SummaryData) : ℚ :=
  match o with
  | none => 0
  | some r => r.charts.spendingOverTime.data.sum

/-- The reported total spend of a summary result (`0` for `none`). -/
def reportedSpend (o : Option SummaryData) : ℚ :=
  match o with
  | none => 0
  | some r => r.kpis.totalSpend

/-! ## Association-list lemmas -/

theorem alookup_upsert {β : Type} (k k₂ : String) (f : Option β → β) (m : List (String × β)) :
    alookup k (upsert k₂ f m) =
      if k₂ = k then some (f (alookup k m)) else alookup k m := by
  induction m with
  | nil =>
    by_cases h : k₂ = k <;> simp [upsert, alookup, h]
  | cons e rest ih =>
    obtain ⟨k₃, v⟩ := e
    by_cases h₃ : k₃ = k₂
    · subst h₃
      by_cases h : k₃ = k <;> simp [upsert, alookup, h, ih]
    · by_cases h : k₃ = k
      · subst h
        have : ¬k₂ = k₃ := fun hh => h₃ hh.symm
        simp [upsert, alookup, h₃, this, ih]
      · simp [upsert, alookup, h₃, h, ih]

/-- Collapsing a grouped scan: folding `upd` through key-wise upserts and then
looking one key up is the same as folding `upd` over just that key's records. -/
def accumFold {α β : Type} (upd : α → Option β → β) (ps : List α) (init : Option β) :
    Option β :=
  ps.foldl (fun o p => some (upd p o)) init

theorem alookup_foldl_upsert {α β : Type} (key : α → String) (upd : α → Option β → β)
    (ps : List α) (m : List (String × β)) (k : String) :
    alookup k (ps.foldl (fun m p => upsert (key p) (upd p) m) m) =
      accumFold upd (ps.filter (fun p => decide (key p = k))) (alookup k m) := by
  induction ps generalizing m with
  | nil => simp [accumFold]
  | cons p rest ih =>
    by_cases h : key p = k
    · simp only [List.foldl_cons, ih, alookup_upsert, h, if_pos, List.filter_cons,
        decide_eq_true_eq]
      simp [accumFold, h]
    · simp only [List.foldl_cons, ih, alookup_upsert, h, if_neg, List.filter_cons,
        decide_eq_true_eq]
      simp [accumFold, h]

/-- The keys of a map. -/
def keysOf {β : Type} (m : List (String × β)) : List String := m.map Prod.fst

theorem keysOf_upsert {β : Type} (k : String) (f : Option β → β) (m : List (String × β)) :
    keysOf (upsert k f m) = if k ∈ keysOf m then keysOf m else keysOf m ++ [k] := by
  induction m with
  | nil => simp [upsert, keysOf]
  | cons e rest ih =>
    obtain ⟨k₂, v⟩ := e
    by_cases h : k₂ = k
    · subst h
      simp [upsert, keysOf]
    · have : ¬k = k₂ := fun hh => h hh.symm
      simp only [upsert, if_neg h, keysOf, List.map_cons] at ih ⊢
      rw [ih]
      by_cases hm : k ∈ List.map Prod.fst rest <;> simp [hm, this]

theorem nodup_keysOf_upsert {β : Type} (k : String) (f : Option β → β)
    (m : List (String × β)) (h : (keysOf m).Nodup) : (keysOf (upsert k f m)).Nodup := by
  rw [keysOf_upsert]
  by_cases hm : k ∈ keysOf m
  · simpa [hm]
  · simpa [hm] using List.Nodup.append h (List.nodup_singleton k) (by simpa using hm)

theorem nodup_keysOf_foldl_upsert {α β : Type} (key : α → String) (upd : α → Option β → β)
    (ps : List α) (m : List (String × β)) (h : (keysOf m).Nodup) :
    (keysOf (ps.foldl (fun m p => upsert (key p) (upd p) m) m)).Nodup := by
  induction ps generalizing m with
  | nil => simpa
  | cons p rest ih => exact ih _ (nodup_keysOf_upsert _ _ _ h)

theorem alookup_eq_some_of_mem {β : Type} {m : List (String × β)} {k : String} {v : β}
    (hnd : (keysOf m).Nodup) (hm : (k, v) ∈ m) : alookup k m = some v := by
  induction m with
  | nil => cases hm
  | cons e rest ih =>
    obtain ⟨k₂, v₂⟩ := e
    have hnd₂ : k₂ ∉ keysOf rest ∧ (keysOf rest).Nodup := by
      have : (k₂ :: keysOf rest).Nodup := hnd
      exact List.nodup_cons.mp this
    rcases List.mem_cons.mp hm with h | h
    · cases h
      simp [alookup]
    · have hk : k₂ ≠ k := by
        rintro rfl
        exact hnd₂.1 (by simpa [keysOf] using List.mem_map_of_mem Prod.fst h)
      simp only [alookup, if_neg hk]
      exact ih hnd₂.2 h

theorem mem_of_alookup_eq_some {β : Type} {m : List (String × β)} {k : String} {v : β}
    (h : alookup k m = some v) : (k, v) ∈ m := by
  induction m with
  | nil => simp [alookup] at h
  | cons e rest ih =>
    obtain ⟨k₂, v₂⟩ := e
    by_cases hk : k₂ = k
    · subst hk
      have hv : v₂ = v := by simpa [alookup] using h
      subst hv
      exact List.mem_cons_self _ _
    · simp only [alookup, if_neg hk] at h
      exact List.mem_cons_of_mem _ (ih h)

/-! ## Injectivity of the grouping key -/

theorem sep_split {c : Char} :
    ∀ (xs ys xs2 ys2 : List Char), c ∉ xs → c ∉ ys →
      xs ++ c :: xs2 = ys ++ c :: ys2 → xs = ys ∧ xs2 = ys2 := by
  intro xs
  induction xs with
  | nil =>
    intro ys xs2 ys2 _ hy h
    cases ys with
    | nil => simpa using h
    | cons y ys₂ =>
      exfalso
      have : c = y := by simpa using congrArg (fun l => l.headD c) h
      exact hy (this ▸ List.mem_cons_self y ys₂)
  | cons x xs₂ ih =>
    intro ys xs2 ys2 hx hy h
    cases ys with
    | nil =>
      exfalso
      have : x = c := by simpa using congrArg (fun l => l.headD c) h
      exact hx (this ▸ List.mem_cons_self x xs₂)
    | cons y ys₂ =>
      have hhead : x = y := by simpa using congrArg (fun l => l.headD c) h
      have htail : xs₂ ++ c :: xs2 = ys₂ ++ c :: ys2 := by simpa using congrArg List.tail h
      have := ih ys₂ xs2 ys2 (fun hm => hx (List.mem_cons_of_mem x hm))
        (fun hm => hy (List.mem_cons_of_mem y hm)) htail
      exact ⟨by rw [hhead, this.1], this.2⟩

theorem last_sep_split {c : Char} (as bs us vs : List Char) (hu : c ∉ us) (hv : c ∉ vs)
    (h : as ++ c :: us = bs ++ c :: vs) : as = bs ∧ us = vs := by
  have hrev : us.reverse ++ c :: as.reverse = vs.reverse ++ c :: bs.reverse := by
    have := congrArg List.reverse h
    simpa [List.reverse_append, List.append_assoc] using this
  have := sep_split us.reverse vs.reverse as.reverse bs.reverse
    (by simpa using hu) (by simpa using hv) hrev
  exact ⟨List.reverse_injective this.2, List.reverse_injective this.1⟩

theorem unitStr_hyphen_free : ∀ u : MUnit, '-' ∉ (unitStr u).data := by
  intro u
  cases u <;> decide

theorem unitStr_injective : ∀ u v : MUnit, unitStr u = unitStr v → u = v := by
  intro u v
  cases u <;> cases v <;> decide

theorem keyOf_inj {p q : Purchase} (h : keyOf p = keyOf q) :
    p.item.name = q.item.name ∧ p.item.unit = q.item.unit := by
  have hd : p.item.name.data ++ '-' :: (unitStr p.item.unit).data =
      q.item.name.data ++ '-' :: (unitStr q.item.unit).data := by
    have := congrArg String.data h
    simpa [keyOf, String.data_append, List.append_assoc] using this
  have := last_sep_split _ _ _ _ (unitStr_hyphen_free p.item.unit)
    (unitStr_hyphen_free q.item.unit) hd
  have strExt : ∀ a b : String, a.data = b.data → a = b := by
    intro a b hab
    cases a
    cases b
    exact congrArg String.mk hab
  exact ⟨strExt _ _ this.1, unitStr_injective _ _ (strExt _ _ this.2)⟩

theorem keyOf_eq_iff {p q : Purchase} :
    keyOf p = keyOf q ↔ p.item.name = q.item.name ∧ p.item.unit = q.item.unit := by
  constructor
  · exact keyOf_inj
  · rintro ⟨h₁, h₂⟩
    simp [keyOf, h₁, h₂]

/-! ## Characterizing the grouped scans -/

theorem qOr_zero_eq_getD (o : Option ℚ) : qOr o 0 = o.getD 0 := by
  cases o with
  | none => rfl
  | some x =>
    by_cases h : x = 0 <;> simp [qOr, h]

theorem accumFold_append_singleton {α β : Type} (upd : α → Option β → β) (l : List α)
    (p : α) (init : Option β) :
    accumFold upd (l ++ [p]) init = some (upd p (accumFold upd l init)) := by
  simp [accumFold, List.foldl_append]

theorem latestOf_append_singleton (l : List Purchase) (p : Purchase) :
    latestOf (l ++ [p]) = latestStep (latestOf l) p := by
  simp [latestOf, List.foldl_append]

theorem head?_append_of_ne_nil {α : Type} {l : List α} (l₂ : List α) (h : l ≠ []) :
    (l ++ l₂).head? = l.head? := by
  cases l with
  | nil => cases h rfl
  | cons x xs => rfl

theorem updStats_none {p : Purchase} (h : 0 ≤ p.date) :
    updStats p none =
      { name := p.item.name, unit := p.item.unit, category := p.item.category
        lastPricePerUnit := qOr p.item.paidPrice 0 / qOr p.item.purchasedAmount 1
        totalQuantity := qOr p.item.purchasedAmount 0, totalSpend := qOr p.item.paidPrice 0
        purchaseCount := 1, latestPurchaseDate := p.date } := by
  simp [updStats, h]

theorem updStats_some_le {p : Purchase} {st : ItemStats} (h : st.latestPurchaseDate ≤ p.date) :
    updStats p (some st) =
      { name := st.name, unit := st.unit, category := p.item.category
        lastPricePerUnit := qOr p.item.paidPrice 0 / qOr p.item.purchasedAmount 1
        totalQuantity := st.totalQuantity + qOr p.item.purchasedAmount 0
        totalSpend := st.totalSpend + qOr p.item.paidPrice 0
        purchaseCount := st.purchaseCount + 1, latestPurchaseDate := p.date } := by
  simp [updStats, h]

theorem updStats_some_gt {p : Purchase} {st : ItemStats}
    (h : ¬st.latestPurchaseDate ≤ p.date) :
    updStats p (some st) =
      { st with
        totalQuantity := st.totalQuantity + qOr p.item.purchasedAmount 0
        totalSpend := st.totalSpend + qOr p.item.paidPrice 0
        purchaseCount := st.purchaseCount + 1 } := by
  simp [updStats, h]

/-- Folding `updStats` over a nonempty group of epoch-or-later purchases yields
exactly the claim's statistics: running sums and count, with price-per-unit and
category taken from the `>=`-latest purchase. -/
theorem accumFold_updStats_char :
    ∀ qs : List Purchase, (∀ p ∈ qs, 0 ≤ p.date) → qs ≠ [] →
      ∃ first sel st, qs.head? = some first ∧ latestOf qs = some sel ∧
        accumFold updStats qs none = some st ∧
        st.name = first.item.name ∧ st.unit = first.item.unit ∧
        st.totalQuantity = qtySum qs ∧ st.totalSpend = spendSum qs ∧
        st.purchaseCount = qs.length ∧ st.latestPurchaseDate = sel.date ∧
        st.lastPricePerUnit = qOr sel.item.paidPrice 0 / qOr sel.item.purchasedAmount 1 ∧
        st.category = sel.item.category ∧ sel ∈ qs ∧ ∀ p ∈ qs, p.date ≤ sel.date := by
  intro qs
  induction qs using List.reverseRecOn with
  | nil =>
    intro _ h
    cases h rfl
  | append_singleton l p ih =>
    intro hdates _
    rcases eq_or_ne l [] with rfl | hl
    · have hp : (0 : Int) ≤ p.date := hdates p (by simp)
      rw [show accumFold updStats ([] ++ [p]) none = some (updStats p none) from rfl,
        updStats_none hp]
      refine ⟨p, p, _, rfl, rfl, rfl, rfl, rfl, ?_, ?_, by simp, rfl, rfl, rfl, by simp, ?_⟩
      · simp [qtySum, qOr_zero_eq_getD]
      · simp [spendSum, qOr_zero_eq_getD]
      · intro q hq
        rcases List.mem_singleton.mp hq with rfl
        exact le_refl _
    · obtain ⟨first, sel₀, st₀, hfst, hlat, hacc, hnm, hun, hqty, hspd, hcnt, hld, hppu,
        hcat, hmem, hbnd⟩ := ih (fun q hq => hdates q (List.mem_append_left _ hq)) hl
      rw [accumFold_append_singleton, hacc]
      rw [latestOf_append_singleton, hlat]
      by_cases hle : sel₀.date ≤ p.date
      · have hle₂ : st₀.latestPurchaseDate ≤ p.date := hld ▸ hle
        rw [updStats_some_le hle₂]
        refine ⟨first, p, _, by rw [head?_append_of_ne_nil _ hl, hfst], ?_, rfl,
          hnm, hun, ?_, ?_, ?_, rfl, rfl, rfl, by simp, ?_⟩
        · simp [latestStep, hle]
        · simp [qtySum, hqty, qOr_zero_eq_getD]
        · simp [spendSum, hspd, qOr_zero_eq_getD]
        · simp [hcnt]
        · intro q hq
          rcases List.mem_append.mp hq with h | h
          · exact le_trans (hbnd q h) hle
          · rcases List.mem_singleton.mp h with rfl
            exact le_refl _
      · have hle₂ : ¬st₀.latestPurchaseDate ≤ p.date := hld ▸ hle
        rw [updStats_some_gt hle₂]
        refine ⟨first, sel₀, _, by rw [head?_append_of_ne_nil _ hl, hfst], ?_, rfl,
          hnm, hun, ?_, ?_, ?_, hld, hppu, hcat, List.mem_append_left _ hmem, ?_⟩
        · simp [latestStep, hle]
        · simp [qtySum, hqty, qOr_zero_eq_getD]
        · simp [spendSum, hspd, qOr_zero_eq_getD]
        · simp [hcnt]
        · intro q hq
          rcases List.mem_append.mp hq with h | h
          · exact hbnd q h
          · rcases List.mem_singleton.mp h with rfl
            exact le_of_not_le hle

/-- Folding `histUpd` over a nonempty group collects the dates in order, with
the descriptive fields taken from the first record. -/
theorem accumFold_histUpd_char :
    ∀ qs : List Purchase, qs ≠ [] →
      ∃ first h₀, qs.head? = some first ∧ accumFold histUpd qs none = some h₀ ∧
        h₀.dates = qs.map (fun p => p.date) ∧ h₀.name = first.item.name ∧
        h₀.unit = first.item.unit ∧ h₀.category = first.item.category := by
  intro qs
  induction qs using List.reverseRecOn with
  | nil =>
    intro h
    cases h rfl
  | append_singleton l p ih =>
    intro _
    rcases eq_or_ne l [] with rfl | hl
    · exact ⟨p, _, rfl, rfl, by simp [histUpd], rfl, rfl, rfl⟩
    · obtain ⟨first, h₀, hfst, hacc, hdts, hnm, hun, hcat⟩ := ih hl
      rw [accumFold_append_singleton, hacc]
      exact ⟨first, _, by rw [head?_append_of_ne_nil _ hl, hfst], rfl,
        by simp [histUpd, hdts], hnm, hun, hcat⟩

/-! ## Lookup characterizations of the engines -/

/-- The grouping key of a (name, unit) pair. -/
def keyString (name : String) (u : MUnit) : String := name ++ "-" ++ unitStr u

theorem keyOf_eq_keyString_iff {p : Purchase} {name : String} {u : MUnit} :
    keyOf p = keyString name u ↔ p.item.name = name ∧ p.item.unit = u := by
  constructor
  · intro h
    have : keyOf p = keyOf
        ⟨{ id := "", name := name, amount := 0, unit := u, category := "",
           status := ItemStatus.Pending }, 0⟩ := h
    exact keyOf_inj this
  · rintro ⟨h₁, h₂⟩
    simp [keyOf, keyString, h₁, h₂]

theorem filter_keyOf_eq_matchNU (name : String) (u : MUnit) (l : List Purchase) :
    l.filter (fun p => decide (keyOf p = keyString name u)) = l.filter (matchNU name u) := by
  apply List.filter_congr
  intro p _
  simp only [matchNU, decide_eq_decide]
  exact keyOf_eq_keyString_iff

theorem alookup_itemStats (name : String) (u : MUnit) (s : Ledger) :
    alookup (keyString name u) (itemStats s) =
      accumFold updStats (groupOf name u s) none := by
  unfold itemStats groupOf
  rw [alookup_foldl_upsert, filter_keyOf_eq_matchNU]
  rfl

theorem alookup_itemHistory (name : String) (u : MUnit) (s : Ledger) :
    alookup (keyString name u) (itemHistory s) =
      accumFold histUpd
        ((List.insertionSort dateAsc ((purchasesAll s).filter qualQty)).filter
          (matchNU name u)) none := by
  unfold itemHistory
  rw [alookup_foldl_upsert, filter_keyOf_eq_matchNU]
  rfl

/-! ## Concrete ledgers used by the examples, witnesses and counterexamples -/

/-- A Bought milk purchase line (quantity, total price). -/
def milkItem (pa pp : ℚ) : ShoppingItem :=
  { id := "i", name := "Milk", amount := pa, unit := MUnit.Liter, category := "dairy"
    status := ItemStatus.Bought, purchasedAmount := some pa, paidPrice := some pp }

/-- The spec's §8 example: milk 2 L for 50000, then 3 L for 60000 a day later. -/
def milkLedger : Ledger :=
  { lists :=
      [{ id := "0", name := "l1", createdAt := 0, items := [milkItem 2 50000] },
       { id := "1", name := "l2", createdAt := oneDay, items := [milkItem 3 60000] }]
    customCategories := [], vendors := [], categoryVendorMap := [], itemInfoMap := [] }

/-- A single purchase whose list predates the Unix epoch. -/
def preEpochLedger : Ledger :=
  { lists :=
      [{ id := "-1", name := "l", createdAt := -oneDay, items := [milkItem 2 10] }]
    customCategories := [], vendors := [], categoryVendorMap := [], itemInfoMap := [] }

unseal Rat.add Rat.mul Rat.inv Rat.sub in
/-- C1 — counterexample.  For the pre-epoch ledger the unique (hence
latest-dated) Milk/liter purchase has `paidPrice / purchasedAmount = 5`, yet
`getAllKnownItems` reports `lastPricePerUnit = 0`: the `>=` scan starts from the
`new Date(0)` sentinel, which a pre-epoch list date never reaches, so the claim
as stated (price and category always taken from the latest-dated purchase) is
false. -/
theorem C1_counterexample :
    (getAllKnownItems preEpochLedger).map (fun m => m.lastPricePerUnit) = [0] ∧
      (groupOf "Milk" MUnit.Liter preEpochLedger).map
        (fun p => p.item.paidPrice.getD 0 / p.item.purchasedAmount.getD 0) = [5] ∧
      (0 : ℚ) ≠ 5 := by
  refine ⟨?_, ?_, by norm_num⟩ <;> decide

unseal Rat.add Rat.mul Rat.inv Rat.sub in
/-- C1 (amended: the characterization holds provided the group's list dates are
at or after the Unix epoch, and the price-per-unit equals
`paidPrice / purchasedAmount` provided the selected latest purchase has a
nonzero `purchasedAmount` — with a zero quantity the source divides by the
`|| 1` fallback instead).  `getAllKnownItems` groups exactly the Bought items
having both `purchasedAmount` and `paidPrice` by (name, unit): a pair with no
qualifying purchase has no group, and a pair with qualifying purchases has a
group carrying the running sums of `purchasedAmount` and `paidPrice`, the
purchase count, and `lastPricePerUnit`/`category` from the latest-dated
purchase, ties broken in favour of the later-encountered record; in particular
the two Milk/liter purchases (50000 for 2 L, then 60000 for 3 L a day later)
yield totalQuantity 5, totalSpend 110000, purchaseCount 2 and
lastPricePerUnit 20000. -/
theorem C1_getAllKnownItems_grouping :
    (∀ (s : Ledger) (name : String) (u : MUnit),
      (groupOf name u s = [] → alookup (keyString name u) (itemStats s) = none) ∧
      (groupOf name u s ≠ [] → (∀ p ∈ groupOf name u s, 0 ≤ p.date) →
        ∃ sel st, latestOf (groupOf name u s) = some sel ∧
          alookup (keyString name u) (itemStats s) = some st ∧
          st.toMasterItem ∈ getAllKnownItems s ∧
          st.name = name ∧ st.unit = u ∧
          st.totalQuantity = qtySum (groupOf name u s) ∧
          st.totalSpend = spendSum (groupOf name u s) ∧
          st.purchaseCount = (groupOf name u s).length ∧
          sel ∈ groupOf name u s ∧ (∀ p ∈ groupOf name u s, p.date ≤ sel.date) ∧
          st.category = sel.item.category ∧
          (sel.item.purchasedAmount.getD 0 ≠ 0 →
            st.lastPricePerUnit =
              sel.item.paidPrice.getD 0 / sel.item.purchasedAmount.getD 0))) ∧
    (getAllKnownItems milkLedger).map
        (fun m => (m.name, m.totalQuantity, m.totalSpend, m.purchaseCount,
          m.lastPricePerUnit)) = [("Milk", 5, 110000, 2, 20000)] := by
  constructor
  · intro s name u
    constructor
    · intro hempty
      rw [alookup_itemStats, hempty]
      rfl
    · intro hne hdates
      obtain ⟨first, sel, st, hfst, hlat, hacc, hnm, hun, hqty, hspd, hcnt, hld, hppu,
        hcat, hmem, hbnd⟩ := accumFold_updStats_char (groupOf name u s) hdates hne
      have hfmem : first ∈ groupOf name u s := by
        cases hg : groupOf name u s with
        | nil => cases hne hg
        | cons a l =>
          rw [hg] at hfst
          cases hfst
          simp [hg]
      have hmatch : matchNU name u first = true := List.of_mem_filter hfmem
      have hflt : first.item.name = name ∧ first.item.unit = u := by
        simpa [matchNU] using hmatch
      have hlook : alookup (keyString name u) (itemStats s) = some st := by
        rw [alookup_itemStats, hacc]
      refine ⟨sel, st, hlat, hlook, ?_, hnm.trans hflt.1, hun.trans hflt.2,
        hqty, hspd, hcnt, hmem, hbnd, hcat, ?_⟩
      · exact List.mem_map_of_mem (fun e => e.2.toMasterItem)
          (mem_of_alookup_eq_some hlook)
      · intro hpa
        have hqmem : boughtBoth sel = true :=
          List.of_mem_filter (List.mem_of_mem_filter hmem)
        have hsome : sel.item.purchasedAmount.isSome := by
          simp only [boughtBoth, Bool.and_eq_true] at hqmem
          exact hqmem.1.2
        rw [hppu, qOr_zero_eq_getD]
        congr 1
        obtain ⟨x, hx⟩ := Option.isSome_iff_exists.mp hsome
        rw [hx] at hpa ⊢
        simp only [Option.getD_some] at hpa ⊢
        simp [qOr, hpa]
  · decide

/-- C1 — witness: the amended theorem applied to the milk ledger. -/
theorem C1_witness :
    (groupOf "Milk" MUnit.Liter milkLedger ≠ []) ∧
      (∀ p ∈ groupOf "Milk" MUnit.Liter milkLedger, 0 ≤ p.date) ∧
      ∃ sel st, latestOf (groupOf "Milk" MUnit.Liter milkLedger) = some sel ∧
        alookup (keyString "Milk" MUnit.Liter) (itemStats milkLedger) = some st ∧
        st.toMasterItem ∈ getAllKnownItems milkLedger ∧
        st.name = "Milk" ∧ st.unit = MUnit.Liter ∧
        st.totalQuantity = qtySum (groupOf "Milk" MUnit.Liter milkLedger) ∧
        st.totalSpend = spendSum (groupOf "Milk" MUnit.Liter milkLedger) ∧
        st.purchaseCount = (groupOf "Milk" MUnit.Liter milkLedger).length ∧
        sel ∈ groupOf "Milk" MUnit.Liter milkLedger ∧
        (∀ p ∈ groupOf "Milk" MUnit.Liter milkLedger, p.date ≤ sel.date) ∧
        st.category = sel.item.category ∧
        (sel.item.purchasedAmount.getD 0 ≠ 0 →
          st.lastPricePerUnit =
            sel.item.paidPrice.getD 0 / sel.item.purchasedAmount.getD 0) :=
  ⟨by decide, by decide,
    (C1_getAllKnownItems_grouping.1 milkLedger "Milk" MUnit.Liter).2 (by decide) (by decide)⟩

/-! ## createList: identity and idempotence -/

theorem createList_eq_found {d : Int} {s : Ledger} {l : ShoppingList}
    (h : s.lists.find? (fun l => decide (l.id = toJalaliDateString d)) = some l) :
    createList d s = (l.id, s) := by
  simp only [createList]
  rw [h]

theorem createList_eq_fresh {d : Int} {s : Ledger}
    (h : s.lists.find? (fun l => decide (l.id = toJalaliDateString d)) = none) :
    createList d s =
      (toJalaliDateString d,
        { s with
          lists := s.lists ++
            [{ id := toJalaliDateString d
               name := todaysShoppingList (toJalaliDateStringLong d)
               createdAt := d, items := [] }] }) := by
  simp only [createList]
  rw [h]

theorem createList_fst (d : Int) (s : Ledger) :
    (createList d s).1 = toJalaliDateString d := by
  cases h : s.lists.find? (fun l => decide (l.id = toJalaliDateString d)) with
  | none => rw [createList_eq_fresh h]
  | some l =>
    rw [createList_eq_found h]
    simpa using List.find?_some h

theorem createList_mem (d : Int) (s : Ledger) :
    ∃ l ∈ (createList d s).2.lists, l.id = toJalaliDateString d := by
  cases h : s.lists.find? (fun l => decide (l.id = toJalaliDateString d)) with
  | none =>
    rw [createList_eq_fresh h]
    exact ⟨_, List.mem_append_right _ (List.mem_singleton_self _), rfl⟩
  | some l =>
    rw [createList_eq_found h]
    exact ⟨l, List.mem_of_find?_eq_some h, by simpa using List.find?_some h⟩

theorem createList_of_exists {d : Int} {s : Ledger}
    (h : ∃ l ∈ s.lists, l.id = toJalaliDateString d) :
    (createList d s).1 = toJalaliDateString d ∧ (createList d s).2 = s := by
  obtain ⟨l, hl, hid⟩ := h
  have hsome : (s.lists.find? (fun l => decide (l.id = toJalaliDateString d))).isSome := by
    rw [List.find?_isSome]
    exact ⟨l, hl, by simpa using hid⟩
  cases hf : s.lists.find? (fun l => decide (l.id = toJalaliDateString d)) with
  | none => rw [hf] at hsome; cases hsome
  | some l₂ =>
    rw [createList_eq_found hf]
    exact ⟨by simpa using List.find?_some hf, rfl⟩

/-- C4: when a list with the id derived from the date already exists,
`createList` returns that id and leaves the ledger unchanged; consequently two
calls for the same calendar date (same derived id) return the same id and do
not duplicate lists — the second call leaves the state of the first untouched. -/
theorem C4_createList_idempotent :
    (∀ (s : Ledger) (d : Int), (∃ l ∈ s.lists, l.id = toJalaliDateString d) →
      (createList d s).1 = toJalaliDateString d ∧ (createList d s).2 = s) ∧
    (∀ (s : Ledger) (d₁ d₂ : Int), toJalaliDateString d₁ = toJalaliDateString d₂ →
      (createList d₂ (createList d₁ s).2).1 = (createList d₁ s).1 ∧
      (createList d₂ (createList d₁ s).2).2 = (createList d₁ s).2) := by
  constructor
  · intro s d h
    exact createList_of_exists h
  · intro s d₁ d₂ hsame
    have hmem : ∃ l ∈ (createList d₁ s).2.lists, l.id = toJalaliDateString d₂ := by
      rw [← hsame]
      exact createList_mem d₁ s
    have := createList_of_exists hmem
    exact ⟨by rw [this.1, ← hsame, createList_fst], this.2⟩

/-- C4 — witness: a ledger already holding the day-0 list, and a double call on
the empty ledger. -/
theorem C4_witness :
    (∃ l ∈ milkLedger.lists, l.id = toJalaliDateString 0) ∧
      (createList 0 milkLedger).1 = toJalaliDateString 0 ∧
      (createList 0 milkLedger).2 = milkLedger ∧
      (createList 0 (createList 0 emptyLedger).2).1 = (createList 0 emptyLedger).1 ∧
      (createList 0 (createList 0 emptyLedger).2).2 = (createList 0 emptyLedger).2 := by
  have h₁ := C4_createList_idempotent.1 milkLedger 0 ⟨milkLedger.lists.head (by decide),
    by decide, by decide⟩
  have h₂ := C4_createList_idempotent.2 emptyLedger 0 0 rfl
  exact ⟨⟨milkLedger.lists.head (by decide), by decide, by decide⟩, h₁.1, h₁.2, h₂.1, h₂.2⟩

/-! ## The list-id uniqueness invariant (C5) -/

/-- The list ids of a ledger. -/
def listIds (s : Ledger) : List String := s.lists.map (fun l => l.id)

theorem listIds_map_preserving {s : Ledger} {f : ShoppingList → ShoppingList}
    (hf : ∀ l, (f l).id = l.id) :
    (s.lists.map f).map (fun l => l.id) = listIds s := by
  rw [List.map_map]
  exact List.map_congr_left (fun l _ => hf l)

theorem listIds_updateList {listId : String} {l : ShoppingList} (s : Ledger)
    (h : l.id = listId) : listIds (updateList listId l s) = listIds s := by
  unfold updateList listIds
  apply listIds_map_preserving
  intro l₂
  by_cases hc : l₂.id = listId <;> simp [hc, h]

theorem nodup_listIds_createList {d : Int} {s : Ledger} (h : (listIds s).Nodup) :
    (listIds (createList d s).2).Nodup := by
  cases hf : s.lists.find? (fun l => decide (l.id = toJalaliDateString d)) with
  | some l =>
    rw [createList_eq_found hf]
    exact h
  | none =>
    have hnot : toJalaliDateString d ∉ listIds s := by
      intro hmem
      obtain ⟨l, hl, hid⟩ := List.mem_map.mp hmem
      have := List.find?_eq_none.mp hf l hl
      simp [hid] at this
    rw [createList_eq_fresh hf]
    simp only [listIds, List.map_append, List.map_cons, List.map_nil]
    refine List.Nodup.append h (List.nodup_singleton _) ?_
    intro a ha hb
    rcases List.mem_singleton.mp hb with rfl
    exact hnot ha

theorem lists_addVendor (now : Int) (name : String) (s : Ledger) :
    (addVendor now name s).2.lists = s.lists := rfl

theorem lists_findOrCreateVendor (now : Int) (vn : Option String) (s : Ledger) :
    (findOrCreateVendor now vn s).2.lists = s.lists := by
  simp only [findOrCreateVendor]
  split
  · rfl
  · split
    · rfl
    · rfl

theorem lists_addCustomData (item : ShoppingItem) (s : Ledger) :
    (addCustomData item s).lists = s.lists := by
  simp only [addCustomData]
  split
  · split
    · rfl
    · rfl
  · split
    · rfl
    · rfl

theorem lists_updateCategoryVendorMap (cat vid : String) (s : Ledger) :
    (updateCategoryVendorMap cat vid s).lists = s.lists := rfl

theorem nodup_listIds_updateList {listId : String} {l : ShoppingList} (s : Ledger)
    (h : l.id = listId) (hn : (listIds s).Nodup) :
    (listIds (updateList listId l s)).Nodup := by
  rw [listIds_updateList s h]
  exact hn

theorem findD_id (s : Ledger) (listId : String) (d0 : Int) :
    ((s.lists.find? (fun l => decide (l.id = listId))).getD
      { id := listId, name := "", createdAt := d0, items := [] }).id = listId := by
  cases hf : s.lists.find? (fun l => decide (l.id = listId)) with
  | none => rfl
  | some l => simpa using List.find?_some hf

theorem nodup_listIds_addItemFromSuggestion {now today : Int} {sug : SmartSuggestion}
    {s : Ledger} (h : (listIds s).Nodup) :
    (listIds (addItemFromSuggestion now today sug s).2).Nodup := by
  simp only [addItemFromSuggestion]
  split
  · exact nodup_listIds_createList h
  · exact nodup_listIds_updateList _ (findD_id _ _ _) (nodup_listIds_createList h)

theorem nodup_listIds_addOcrPurchase {now : Int} {ocr : OcrResult} {pm : PaymentMethod}
    {ps : PaymentStatus} {vn : Option String} {s : Ledger} (h : (listIds s).Nodup) :
    (listIds (addOcrPurchase now ocr pm ps vn s).2).Nodup := by
  have h₁ : (listIds (findOrCreateVendor now vn s).2).Nodup := by
    unfold listIds
    rw [lists_findOrCreateVendor]
    exact h
  have hfold : ∀ (items : List ShoppingItem) (st : Ledger),
      (items.foldl (fun st item =>
        let st₁ := addCustomData item st
        if item.category ≠ "" ∧ sTruthy (findOrCreateVendor now vn s).1 then
          updateCategoryVendorMap item.category ((findOrCreateVendor now vn s).1.getD "") st₁
        else st₁) st).lists = st.lists := by
    intro items
    induction items with
    | nil => intro st; rfl
    | cons it rest ih =>
      intro st
      rw [List.foldl_cons, ih]
      by_cases hc : it.category ≠ "" ∧ sTruthy (findOrCreateVendor now vn s).1 <;>
        simp [hc, lists_updateCategoryVendorMap, lists_addCustomData]
  simp only [addOcrPurchase]
  cases hp : parseJalaliDate ocr.date with
  | none => exact h₁
  | some parsedDate =>
    refine nodup_listIds_updateList _ (findD_id _ _ _) ?_
    unfold listIds
    rw [hfold]
    exact nodup_listIds_createList h₁

/-- One mutation-layer operation with arbitrary arguments (the claim's
reading): the time parameters `now`/`today` are arbitrary, `updateList` may
replace a list by any list, and `importData` may install any decoded payload. -/
inductive StepAny : Ledger → Ledger → Prop where
  | createList (s : Ledger) (d : Int) : StepAny s (Shopping.createList d s).2
  | updateList (s : Ledger) (listId : String) (l : ShoppingList) :
      StepAny s (Shopping.updateList listId l s)
  | deleteList (s : Ledger) (listId : String) : StepAny s (Shopping.deleteList listId s)
  | updateItem (s : Ledger) (listId itemId : String) (u : ItemPatch) :
      StepAny s (Shopping.updateItem listId itemId u s)
  | addItemFromSuggestion (s : Ledger) (now today : Int) (sug : SmartSuggestion) :
      StepAny s (Shopping.addItemFromSuggestion now today sug s).2
  | addOcrPurchase (s : Ledger) (now : Int) (ocr : OcrResult) (pm : PaymentMethod)
      (ps : PaymentStatus) (vn : Option String) :
      StepAny s (Shopping.addOcrPurchase now ocr pm ps vn s).2
  | addVendor (s : Ledger) (now : Int) (name : String) :
      StepAny s (Shopping.addVendor now name s).2
  | updateVendor (s : Ledger) (vendorId : String) (u : VendorPatch) :
      StepAny s (Shopping.updateVendor vendorId u s)
  | deleteVendor (s : Ledger) (vendorId : String) : StepAny s (Shopping.deleteVendor vendorId s)
  | findOrCreateVendor (s : Ledger) (now : Int) (vn : Option String) :
      StepAny s (Shopping.findOrCreateVendor now vn s).2
  | updateCategoryVendorMap (s : Ledger) (cat vid : String) :
      StepAny s (Shopping.updateCategoryVendorMap cat vid s)
  | updateMasterItem (s : Ledger) (n : String) (u : MUnit) (n₂ : String) (u₂ : MUnit)
      (c : String) : StepAny s (Shopping.updateMasterItem n u n₂ u₂ c s)
  | importData (s : Ledger) (payload : Ledger) : StepAny s (importDataApply payload s)

/-- Reachability from the empty ledger by arbitrary mutation-layer calls. -/
def ReachableAny (s : Ledger) : Prop := Relation.ReflTransGen StepAny emptyLedger s

/-- The same operations, except that `updateList` keeps the id of the list it
replaces and `importData` payloads carry pairwise-distinct list ids. -/
inductive StepOk : Ledger → Ledger → Prop where
  | createList (s : Ledger) (d : Int) : StepOk s (Shopping.createList d s).2
  | updateList (s : Ledger) (listId : String) (l : ShoppingList) (h : l.id = listId) :
      StepOk s (Shopping.updateList listId l s)
  | deleteList (s : Ledger) (listId : String) : StepOk s (Shopping.deleteList listId s)
  | updateItem (s : Ledger) (listId itemId : String) (u : ItemPatch) :
      StepOk s (Shopping.updateItem listId itemId u s)
  | addItemFromSuggestion (s : Ledger) (now today : Int) (sug : SmartSuggestion) :
      StepOk s (Shopping.addItemFromSuggestion now today sug s).2
  | addOcrPurchase (s : Ledger) (now : Int) (ocr : OcrResult) (pm : PaymentMethod)
      (ps : PaymentStatus) (vn : Option String) :
      StepOk s (Shopping.addOcrPurchase now ocr pm ps vn s).2
  | addVendor (s : Ledger) (now : Int) (name : String) :
      StepOk s (Shopping.addVendor now name s).2
  | updateVendor (s : Ledger) (vendorId : String) (u : VendorPatch) :
      StepOk s (Shopping.updateVendor vendorId u s)
  | deleteVendor (s : Ledger) (vendorId : String) : StepOk s (Shopping.deleteVendor vendorId s)
  | findOrCreateVendor (s : Ledger) (now : Int) (vn : Option String) :
      StepOk s (Shopping.findOrCreateVendor now vn s).2
  | updateCategoryVendorMap (s : Ledger) (cat vid : String) :
      StepOk s (Shopping.updateCategoryVendorMap cat vid s)
  | updateMasterItem (s : Ledger) (n : String) (u : MUnit) (n₂ : String) (u₂ : MUnit)
      (c : String) : StepOk s (Shopping.updateMasterItem n u n₂ u₂ c s)
  | importData (s : Ledger) (payload : Ledger)
      (h : (payload.lists.map (fun l => l.id)).Nodup) : StepOk s (importDataApply payload s)

/-- Reachability from the empty ledger by id-respecting mutation-layer calls. -/
def ReachableOk (s : Ledger) : Prop := Relation.ReflTransGen StepOk emptyLedger s

/-- An empty list duplicated twice inside one import payload. -/
def dupPayload : Ledger :=
  { lists :=
      [{ id := "0", name := "", createdAt := 0, items := [] },
       { id := "0", name := "", createdAt := 0, items := [] }]
    customCategories := [], vendors := [], categoryVendorMap := [], itemInfoMap := [] }

/-- C5 — counterexample.  One `importData` call with a payload holding two
lists of id "0" reaches, from the empty ledger, a state with duplicate list
ids: with arbitrary arguments the mutation layer does not preserve the claimed
invariant (`updateList` with an id-changing replacement breaks it likewise). -/
theorem C5_counterexample :
    ReachableAny (importDataApply dupPayload emptyLedger) ∧
      ¬((importDataApply dupPayload emptyLedger).lists.map (fun l => l.id)).Nodup :=
  ⟨Relation.ReflTransGen.single (StepAny.importData emptyLedger dupPayload), by decide⟩

theorem listIds_map_eq {f : ShoppingList → ShoppingList} (hf : ∀ l, (f l).id = l.id)
    (ls : List ShoppingList) :
    (ls.map f).map (fun l => l.id) = ls.map (fun l => l.id) := by
  rw [List.map_map]
  exact List.map_congr_left (fun l _ => hf l)

theorem nodup_map_ids_of_preserving {f : ShoppingList → ShoppingList}
    (hf : ∀ l, (f l).id = l.id) {ls : List ShoppingList}
    (h : (ls.map (fun l => l.id)).Nodup) : ((ls.map f).map (fun l => l.id)).Nodup := by
  rw [listIds_map_eq hf]
  exact h

theorem nodup_listIds_step {s₁ s₂ : Ledger} (h : StepOk s₁ s₂)
    (hn : (listIds s₁).Nodup) : (listIds s₂).Nodup := by
  cases h with
  | createList d => exact nodup_listIds_createList hn
  | updateList listId l hid => exact nodup_listIds_updateList _ hid hn
  | deleteList listId =>
    refine List.Nodup.sublist ?_ hn
    exact List.Sublist.map _ (List.filter_sublist _)
  | updateItem listId itemId u =>
    simp only [listIds, Shopping.updateItem]
    refine nodup_map_ids_of_preserving ?_ hn
    intro l
    split <;> rfl
  | addItemFromSuggestion now today sug => exact nodup_listIds_addItemFromSuggestion hn
  | addOcrPurchase now ocr pm ps vn => exact nodup_listIds_addOcrPurchase hn
  | addVendor now name => exact hn
  | updateVendor vendorId u => exact hn
  | deleteVendor vendorId =>
    simp only [listIds, Shopping.deleteVendor]
    refine nodup_map_ids_of_preserving ?_ hn
    intro l
    rfl
  | findOrCreateVendor now vn =>
    simp only [listIds]
    rw [lists_findOrCreateVendor]
    exact hn
  | updateCategoryVendorMap cat vid => exact hn
  | updateMasterItem n u n₂ u₂ c =>
    simp only [listIds, Shopping.updateMasterItem]
    refine nodup_map_ids_of_preserving ?_ hn
    intro l
    rfl
  | importData payload hp =>
    simp only [listIds, Shopping.importDataApply]
    refine nodup_map_ids_of_preserving ?_ hp
    intro l
    rfl

/-- C5 (amended: the invariant holds for every state reachable from the empty
ledger by mutation-layer operations, provided each `updateList` call keeps the
id of the list it replaces and each `importData` payload has pairwise-distinct
list ids — with fully arbitrary arguments those two operations can install
duplicates): no two lists of a reachable ledger share an id. -/
theorem C5_no_duplicate_list_ids (s : Ledger) (h : ReachableOk s) :
    (s.lists.map (fun l => l.id)).Nodup := by
  induction h with
  | refl => decide
  | tail _ hstep ih => exact nodup_listIds_step hstep ih

/-- C5 — witness: the invariant at the state reached by one `createList` call. -/
theorem C5_witness :
    ((Shopping.createList 0 emptyLedger).2.lists.map (fun l => l.id)).Nodup :=
  C5_no_duplicate_list_ids (Shopping.createList 0 emptyLedger).2
    (Relation.ReflTransGen.single (StepOk.createList emptyLedger 0))

/-! ## addOcrPurchase on an unparseable date (C6) -/

/-- The blank-name guard of `findOrCreateVendor`
(`!vendorName || !vendorName.trim()`). -/
def vnBlank (vn : Option String) : Bool :=
  !sTruthy vn || !sTruthy (some (jsTrim (vn.getD "")))

theorem findOrCreateVendor_blank {now : Int} {vn : Option String} {s : Ledger}
    (h : vnBlank vn = true) : findOrCreateVendor now vn s = (none, s) := by
  simp only [findOrCreateVendor, vnBlank] at h ⊢
  rw [if_pos h]

theorem findOrCreateVendor_found {now : Int} {vn : Option String} {s : Ledger} {v : Vendor}
    (h : vnBlank vn = false)
    (hf : s.vendors.find? (fun v => decide (jsLower v.name = jsLower (jsTrim (vn.getD "")))) =
      some v) :
    findOrCreateVendor now vn s = (some v.id, s) := by
  simp only [findOrCreateVendor, vnBlank] at h ⊢
  rw [if_neg (by simp [h]), hf]

theorem findOrCreateVendor_fresh {now : Int} {vn : Option String} {s : Ledger}
    (h : vnBlank vn = false)
    (hf : s.vendors.find? (fun v => decide (jsLower v.name = jsLower (jsTrim (vn.getD "")))) =
      none) :
    findOrCreateVendor now vn s =
      (some ("vendor-" ++ toString now),
        { s with vendors := s.vendors ++
            [{ id := "vendor-" ++ toString now, name := jsTrim (vn.getD "") }] }) := by
  simp only [findOrCreateVendor, vnBlank] at h ⊢
  rw [if_neg (by simp [h]), hf]
  rfl

theorem addOcrPurchase_invalid {now : Int} {ocr : OcrResult} {pm : PaymentMethod}
    {ps : PaymentStatus} {vn : Option String} {s : Ledger}
    (hp : parseJalaliDate ocr.date = none) :
    addOcrPurchase now ocr pm ps vn s = ("Invalid Date", (findOrCreateVendor now vn s).2) := by
  simp only [addOcrPurchase]
  rw [hp]

/-- C6 — counterexample.  With an unparseable batch date and a fresh
`vendorName`, the import fails with the sentinel but the ledger's vendors are
changed: the vendor is resolved/created *before* the date is parsed, so the
claim's "vendors … unchanged, regardless of whether a vendorName argument was
supplied" is false. -/
theorem C6_counterexample :
    (addOcrPurchase 99 { date := "bad", items := [] } PaymentMethod.Cash PaymentStatus.Paid
      (some "Ali") emptyLedger).1 = "Invalid Date" ∧
    (addOcrPurchase 99 { date := "bad", items := [] } PaymentMethod.Cash PaymentStatus.Paid
      (some "Ali") emptyLedger).2.vendors ≠ emptyLedger.vendors := by
  constructor
  · decide
  · decide

/-- C6 (amended: on an unparseable batch date `addOcrPurchase` returns the
`"Invalid Date"` sentinel without throwing and commits no partial import to
`lists`, `customCategories`, `categoryVendorMap` and `itemInfoMap`; `vendors`
are unchanged when the vendorName is absent/blank or matches an existing vendor
case-insensitively after trimming, but a fresh vendorName leaves one
newly-created vendor behind, because the source resolves the vendor before
parsing the date). -/
theorem C6_addOcrPurchase_invalid_date (s : Ledger) (ocr : OcrResult) (pm : PaymentMethod)
    (ps : PaymentStatus) (vn : Option String) (now : Int)
    (hp : parseJalaliDate ocr.date = none) :
    (addOcrPurchase now ocr pm ps vn s).1 = "Invalid Date" ∧
    (addOcrPurchase now ocr pm ps vn s).2.lists = s.lists ∧
    (addOcrPurchase now ocr pm ps vn s).2.customCategories = s.customCategories ∧
    (addOcrPurchase now ocr pm ps vn s).2.categoryVendorMap = s.categoryVendorMap ∧
    (addOcrPurchase now ocr pm ps vn s).2.itemInfoMap = s.itemInfoMap ∧
    ((vnBlank vn = true ∨ ∃ v ∈ s.vendors, jsLower v.name = jsLower (jsTrim (vn.getD ""))) →
      (addOcrPurchase now ocr pm ps vn s).2.vendors = s.vendors) ∧
    (vnBlank vn = false →
      (∀ v ∈ s.vendors, jsLower v.name ≠ jsLower (jsTrim (vn.getD ""))) →
      (addOcrPurchase now ocr pm ps vn s).2.vendors = s.vendors ++
        [{ id := "vendor-" ++ toString now, name := jsTrim (vn.getD "") }]) := by
  rw [addOcrPurchase_invalid hp]
  refine ⟨rfl, lists_findOrCreateVendor now vn s, ?_, ?_, ?_, ?_, ?_⟩
  · simp only [findOrCreateVendor]
    split
    · rfl
    · split <;> rfl
  · simp only [findOrCreateVendor]
    split
    · rfl
    · split <;> rfl
  · simp only [findOrCreateVendor]
    split
    · rfl
    · split <;> rfl
  · rintro (hb | ⟨v, hv, hmatch⟩)
    · rw [findOrCreateVendor_blank hb]
    · cases hblank : vnBlank vn with
      | true => rw [findOrCreateVendor_blank hblank]
      | false =>
        have hsome : (s.vendors.find?
            (fun v => decide (jsLower v.name = jsLower (jsTrim (vn.getD ""))))).isSome := by
          rw [List.find?_isSome]
          exact ⟨v, hv, by simpa using hmatch⟩
        cases hf : s.vendors.find?
            (fun v => decide (jsLower v.name = jsLower (jsTrim (vn.getD "")))) with
        | none => rw [hf] at hsome; cases hsome
        | some v₂ => rw [findOrCreateVendor_found hblank hf]
  · intro hb hnone
    have hf : s.vendors.find?
        (fun v => decide (jsLower v.name = jsLower (jsTrim (vn.getD "")))) = none := by
      rw [List.find?_eq_none]
      intro v hv
      simpa using hnone v hv
    rw [findOrCreateVendor_fresh hb hf]

/-- C6 — witness: a fresh vendor name with an unparseable date on the empty
ledger. -/
theorem C6_witness :
    parseJalaliDate "bad" = none ∧
    (addOcrPurchase 7 { date := "bad", items := [] } PaymentMethod.Cash PaymentStatus.Paid
      (some "Ali") emptyLedger).1 = "Invalid Date" ∧
    (addOcrPurchase 7 { date := "bad", items := [] } PaymentMethod.Cash PaymentStatus.Paid
      (some "Ali") emptyLedger).2.lists = emptyLedger.lists ∧
    (addOcrPurchase 7 { date := "bad", items := [] } PaymentMethod.Cash PaymentStatus.Paid
      (some "Ali") emptyLedger).2.vendors = emptyLedger.vendors ++
        [{ id := "vendor-" ++ toString 7, name := jsTrim "Ali" }] := by
  have h := C6_addOcrPurchase_invalid_date emptyLedger { date := "bad", items := [] }
    PaymentMethod.Cash PaymentStatus.Paid (some "Ali") 7 (by decide)
  exact ⟨by decide, h.1, h.2.1, h.2.2.2.2.2.2 (by decide) (by intro v hv; cases hv)⟩

/-! ## Minimum/maximum folds and sorted-list endpoints (C7, C9) -/

theorem foldl_min_le_init : ∀ (ds : List Int) (d : Int), ds.foldl min d ≤ d := by
  intro ds
  induction ds with
  | nil => intro d; exact le_refl d
  | cons a t ih => intro d; exact le_trans (ih (min d a)) (min_le_left d a)

theorem foldl_min_le_mem : ∀ (ds : List Int) (d y : Int), y ∈ ds → ds.foldl min d ≤ y := by
  intro ds
  induction ds with
  | nil => intro d y hy; cases hy
  | cons a t ih =>
    intro d y hy
    rcases List.mem_cons.mp hy with rfl | hy
    · exact le_trans (foldl_min_le_init t (min d y)) (min_le_right d y)
    · exact ih (min d a) y hy

theorem foldl_min_mem_or : ∀ (ds : List Int) (d : Int),
    ds.foldl min d = d ∨ ds.foldl min d ∈ ds := by
  intro ds
  induction ds with
  | nil => intro d; exact Or.inl rfl
  | cons a t ih =>
    intro d
    rcases ih (min d a) with h | h
    · rcases min_choice d a with hm | hm
      · exact Or.inl (by rw [List.foldl_cons, h, hm])
      · exact Or.inr (by rw [List.foldl_cons, h, hm]; exact List.mem_cons_self a t)
    · exact Or.inr (List.mem_cons_of_mem a h)

theorem foldl_max_init_le : ∀ (ds : List Int) (d : Int), d ≤ ds.foldl max d := by
  intro ds
  induction ds with
  | nil => intro d; exact le_refl d
  | cons a t ih => intro d; exact le_trans (le_max_left d a) (ih (max d a))

theorem foldl_max_mem_le : ∀ (ds : List Int) (d y : Int), y ∈ ds → y ≤ ds.foldl max d := by
  intro ds
  induction ds with
  | nil => intro d y hy; cases hy
  | cons a t ih =>
    intro d y hy
    rcases List.mem_cons.mp hy with rfl | hy
    · exact le_trans (le_max_right d y) (foldl_max_init_le t (max d y))
    · exact ih (max d a) y hy

theorem foldl_max_mem_or : ∀ (ds : List Int) (d : Int),
    ds.foldl max d = d ∨ ds.foldl max d ∈ ds := by
  intro ds
  induction ds with
  | nil => intro d; exact Or.inl rfl
  | cons a t ih =>
    intro d
    rcases ih (max d a) with h | h
    · rcases max_choice d a with hm | hm
      · exact Or.inl (by rw [List.foldl_cons, h, hm])
      · exact Or.inr (by rw [List.foldl_cons, h, hm]; exact List.mem_cons_self a t)
    · exact Or.inr (List.mem_cons_of_mem a h)

theorem sorted_dateAsc_head_min {x : Purchase} {xs : List Purchase}
    (h : List.Sorted dateAsc (x :: xs)) : ∀ y ∈ x :: xs, x.date ≤ y.date := by
  intro y hy
  rcases List.mem_cons.mp hy with rfl | hy
  · exact le_refl _
  · exact List.rel_of_sorted_cons h y hy

theorem sorted_dateAsc_getLast_max :
    ∀ (l : List Purchase) (hne : l ≠ []), List.Sorted dateAsc l →
      ∀ y ∈ l, y.date ≤ (l.getLast hne).date := by
  intro l
  induction l with
  | nil => intro hne; cases hne rfl
  | cons a t ih =>
    intro hne hs y hy
    cases t with
    | nil =>
      rcases List.mem_singleton.mp hy with rfl
      exact le_refl _
    | cons b t₂ =>
      rw [List.getLast_cons (List.cons_ne_nil b t₂)]
      rcases List.mem_cons.mp hy with rfl | hy
      · exact le_trans (List.rel_of_sorted_cons hs b (List.mem_cons_self b t₂))
          (ih (List.cons_ne_nil b t₂) ((List.sorted_cons.mp hs).2) b
            (List.mem_cons_self b t₂))
      · exact ih (List.cons_ne_nil b t₂) ((List.sorted_cons.mp hs).2) y hy

theorem foldl_add_eq (f : Purchase → ℚ) :
    ∀ (l : List Purchase) (a : ℚ), l.foldl (fun acc p => acc + f p) a = a + (l.map f).sum := by
  intro l
  induction l with
  | nil => intro a; simp
  | cons p t ih =>
    intro a
    rw [List.foldl_cons, ih, List.map_cons, List.sum_cons]
    ring

/-! ## C7: the expense forecast -/

/-- C7: `getExpenseForecast` is absent exactly when there are fewer than 5
Bought-with-price purchases or the inclusive day span from the earliest to the
latest qualifying purchase (`fcSpan`) is under 30 days; otherwise it reports
`daily = total spend / span` and `monthly = daily * 30`. -/
theorem C7_getExpenseForecast_characterization (s : Ledger) :
    (getExpenseForecast s = none ↔
      ((purchasesAll s).filter qualPrice).length < 5 ∨
        fcSpan ((purchasesAll s).filter qualPrice) < 30) ∧
    (getExpenseForecast s ≠ none →
      getExpenseForecast s = some
        { daily := spendSum ((purchasesAll s).filter qualPrice) /
            ((fcSpan ((purchasesAll s).filter qualPrice) : Int) : ℚ)
          monthly := spendSum ((purchasesAll s).filter qualPrice) /
            ((fcSpan ((purchasesAll s).filter qualPrice) : Int) : ℚ) * 30 }) := by
  by_cases h5 : ((purchasesAll s).filter qualPrice).length < 5
  · have hnone : getExpenseForecast s = none := by
      simp only [getExpenseForecast]
      rw [if_pos h5]
    rw [hnone]
    exact ⟨⟨fun _ => Or.inl h5, fun _ => rfl⟩, fun h => absurd rfl h⟩
  · have hlen := List.length_insertionSort dateAsc ((purchasesAll s).filter qualPrice)
    cases hs : List.insertionSort dateAsc ((purchasesAll s).filter qualPrice) with
    | nil =>
      exfalso
      rw [hs] at hlen
      simp only [List.length_nil] at hlen
      exact h5 (by rw [← hlen]; norm_num)
    | cons x xs =>
      have hsort : List.Sorted dateAsc (x :: xs) :=
        hs ▸ List.sorted_insertionSort dateAsc ((purchasesAll s).filter qualPrice)
      have hperm : (x :: xs).Perm ((purchasesAll s).filter qualPrice) :=
        hs ▸ List.perm_insertionSort dateAsc ((purchasesAll s).filter qualPrice)
      cases hqd : ((purchasesAll s).filter qualPrice).map (fun p => p.date) with
      | nil =>
        exfalso
        have : ((purchasesAll s).filter qualPrice) = [] := by
          cases hq : (purchasesAll s).filter qualPrice with
          | nil => rfl
          | cons a t => rw [hq] at hqd; cases hqd
        exact h5 (by rw [this]; norm_num)
      | cons d ds =>
        have hmemdates : ∀ y, y ∈ d :: ds → ∃ p ∈ x :: xs, p.date = y := by
          intro y hy
          rw [← hqd] at hy
          obtain ⟨p, hp, hpd⟩ := List.mem_map.mp hy
          exact ⟨p, hperm.mem_iff.mpr hp, hpd⟩
        have hdatemem : ∀ p ∈ x :: xs, p.date ∈ d :: ds := by
          intro p hp
          rw [← hqd]
          exact List.mem_map_of_mem _ (hperm.mem_iff.mp hp)
        have hxmin : ∀ y ∈ d :: ds, x.date ≤ y := by
          intro y hy
          obtain ⟨p, hp, rfl⟩ := hmemdates y hy
          exact sorted_dateAsc_head_min hsort p hp
        set gl := (x :: xs).getLast (List.cons_ne_nil x xs) with hgl
        have hglmem : gl ∈ x :: xs := List.getLast_mem _
        have hglmax : ∀ y ∈ d :: ds, y ≤ gl.date := by
          intro y hy
          obtain ⟨p, hp, rfl⟩ := hmemdates y hy
          exact sorted_dateAsc_getLast_max (x :: xs) (List.cons_ne_nil x xs) hsort p hp
        have hminEq : ds.foldl min d = x.date := by
          apply le_antisymm
          · rcases List.mem_cons.mp (hdatemem x (List.mem_cons_self x xs)) with h | h
            · rw [h]; exact foldl_min_le_init ds d
            · exact foldl_min_le_mem ds d _ h
          · apply hxmin
            rcases foldl_min_mem_or ds d with h | h
            · rw [h]; exact List.mem_cons_self d ds
            · exact List.mem_cons_of_mem d h
        have hmaxEq : ds.foldl max d = gl.date := by
          apply le_antisymm
          · apply hglmax
            rcases foldl_max_mem_or ds d with h | h
            · rw [h]; exact List.mem_cons_self d ds
            · exact List.mem_cons_of_mem d h
          · rcases List.mem_cons.mp (hdatemem gl hglmem) with h | h
            · rw [h]; exact foldl_max_init_le ds d
            · exact foldl_max_mem_le ds d _ h
        have hspanEq : fcSpan ((purchasesAll s).filter qualPrice) =
            jsRound (absDays gl.date x.date) + 1 := by
          simp only [fcSpan]
          rw [hqd]
          dsimp only
          rw [hminEq, hmaxEq]
        have hspend : (x :: xs).foldl (fun sum item => sum + item.item.paidPrice.getD 0) 0 =
            spendSum ((purchasesAll s).filter qualPrice) := by
          rw [foldl_add_eq, zero_add]
          exact (hperm.map _).sum_eq
        have hunfold : getExpenseForecast s =
            if jsRound (absDays gl.date x.date) + 1 < 30 then none
            else some
              { daily := spendSum ((purchasesAll s).filter qualPrice) /
                  ((jsRound (absDays gl.date x.date) + 1 : Int) : ℚ)
                monthly := spendSum ((purchasesAll s).filter qualPrice) /
                  ((jsRound (absDays gl.date x.date) + 1 : Int) : ℚ) * 30 } := by
          simp only [getExpenseForecast]
          rw [if_neg h5, hs]
          dsimp only
          rw [hspend]
        rw [hunfold, hspanEq]
        by_cases h30 : jsRound (absDays gl.date x.date) + 1 < 30
        · rw [if_pos h30]
          exact ⟨⟨fun _ => Or.inr h30, fun _ => rfl⟩, fun h => absurd rfl h⟩
        · rw [if_neg h30]
          constructor
          · constructor
            · intro h
              cases h
            · intro h
              rcases h with h | h
              · exact absurd h h5
              · exact absurd h h30
          · intro _
            rfl

/-- A Bought item with a given paid price. -/
def pricedItem (pp : ℚ) : ShoppingItem :=
  { id := "i", name := "x", amount := 1, unit := MUnit.Piece, category := "c"
    status := ItemStatus.Bought, purchasedAmount := some 1, paidPrice := some pp }

/-- Five priced purchases spanning 31 inclusive days. -/
def forecastLedger : Ledger :=
  { lists :=
      [{ id := "0", name := "", createdAt := 0, items := [pricedItem 10, pricedItem 20] },
       { id := "15", name := "", createdAt := 15 * oneDay, items := [pricedItem 30, pricedItem 40] },
       { id := "30", name := "", createdAt := 30 * oneDay, items := [pricedItem 50] }]
    customCategories := [], vendors := [], categoryVendorMap := [], itemInfoMap := [] }

unseal Rat.add Rat.mul Rat.inv Rat.sub in
/-- C7 — witness: on `forecastLedger` (5 purchases, 31-day span) the forecast is
present and equals the claimed rates. -/
theorem C7_witness :
    getExpenseForecast forecastLedger ≠ none ∧
      getExpenseForecast forecastLedger = some
        { daily := spendSum ((purchasesAll forecastLedger).filter qualPrice) /
            ((fcSpan ((purchasesAll forecastLedger).filter qualPrice) : Int) : ℚ)
          monthly := spendSum ((purchasesAll forecastLedger).filter qualPrice) /
            ((fcSpan ((purchasesAll forecastLedger).filter qualPrice) : Int) : ℚ) * 30 } :=
  ⟨by decide, (C7_getExpenseForecast_characterization forecastLedger).2 (by decide)⟩

/-! ## C9: latest purchase info -/

/-- C9: `getLatestPurchaseInfo(name, unit)` considers the Bought purchases of
that (name, unit) with truthy ("present") price and quantity; when none exist
it returns the empty result object, and otherwise it returns the
price-per-unit (`paidPrice / purchasedAmount`), vendor id and quantity of a
purchase with the maximum list date. -/
theorem C9_getLatestPurchaseInfo_characterization (s : Ledger) (name : String) (u : MUnit) :
    ((purchasesAll s).filter (qualLatest name u) = [] →
      getLatestPurchaseInfo name u s = {}) ∧
    ((purchasesAll s).filter (qualLatest name u) ≠ [] →
      ∃ p ∈ (purchasesAll s).filter (qualLatest name u),
        (∀ q ∈ (purchasesAll s).filter (qualLatest name u), q.date ≤ p.date) ∧
        getLatestPurchaseInfo name u s =
          { pricePerUnit := some (p.item.paidPrice.getD 0 / p.item.purchasedAmount.getD 0)
            vendorId := p.item.vendorId
            lastAmount := p.item.purchasedAmount }) := by
  constructor
  · intro hempty
    simp only [getLatestPurchaseInfo]
    rw [hempty]
    rfl
  · intro hne
    cases hs : List.insertionSort dateDesc ((purchasesAll s).filter (qualLatest name u)) with
    | nil =>
      exfalso
      have hlen := List.length_insertionSort dateDesc
        ((purchasesAll s).filter (qualLatest name u))
      rw [hs] at hlen
      exact hne (List.length_eq_zero.mp hlen.symm)
    | cons x xs =>
      have hsort : List.Sorted dateDesc (x :: xs) :=
        hs ▸ List.sorted_insertionSort dateDesc ((purchasesAll s).filter (qualLatest name u))
      have hperm : (x :: xs).Perm ((purchasesAll s).filter (qualLatest name u)) :=
        hs ▸ List.perm_insertionSort dateDesc ((purchasesAll s).filter (qualLatest name u))
      refine ⟨x, hperm.mem_iff.mp (List.mem_cons_self x xs), ?_, ?_⟩
      · intro q hq
        rcases List.mem_cons.mp (hperm.mem_iff.mpr hq) with rfl | hmem
        · exact le_refl _
        · exact List.rel_of_sorted_cons hsort q hmem
      · simp only [getLatestPurchaseInfo]
        rw [hs]

/-- C9 — witness: the milk ledger's latest Milk/liter purchase. -/
theorem C9_witness :
    (purchasesAll milkLedger).filter (qualLatest "Milk" MUnit.Liter) ≠ [] ∧
      ∃ p ∈ (purchasesAll milkLedger).filter (qualLatest "Milk" MUnit.Liter),
        (∀ q ∈ (purchasesAll milkLedger).filter (qualLatest "Milk" MUnit.Liter),
          q.date ≤ p.date) ∧
        getLatestPurchaseInfo "Milk" MUnit.Liter milkLedger =
          { pricePerUnit := some (p.item.paidPrice.getD 0 / p.item.purchasedAmount.getD 0)
            vendorId := p.item.vendorId
            lastAmount := p.item.purchasedAmount } :=
  ⟨by decide,
    (C9_getLatestPurchaseInfo_characterization milkLedger "Milk" MUnit.Liter).2 (by decide)⟩

/-! ## The suggestion engine: evaluation and membership lemmas -/

theorem suggestionFor_short {today : Int} {h : HistEntry} (hlen : h.dates.length < 2) :
    suggestionFor today h = none := by
  simp only [suggestionFor]
  rw [if_pos hlen]

theorem suggestionFor_zero_cycle {today : Int} {h : HistEntry}
    (hlen : ¬h.dates.length < 2) (hz : cycleOf h.dates = 0) :
    suggestionFor today h = none := by
  simp only [suggestionFor]
  rw [if_neg hlen, if_pos hz]

theorem suggestionFor_depleted {today : Int} {h : HistEntry}
    (hlen : ¬h.dates.length < 2) (hz : ¬cycleOf h.dates = 0)
    (hge : cycleOf h.dates ≤ elapsedOf today h.dates) :
    suggestionFor today h = some
      { name := h.name, unit := h.unit, category := h.category
        lastPurchaseDate := h.dates.getLastD 0
        avgPurchaseCycleDays := cycleOf h.dates
        reason := reasonDepleted (cycleOf h.dates) (elapsedOf today h.dates - cycleOf h.dates)
        priority :=
          if 3 < elapsedOf today h.dates - cycleOf h.dates then "high" else "medium" } := by
  simp only [suggestionFor]
  rw [if_neg hlen, if_neg hz, if_pos hge]

theorem suggestionFor_low {today : Int} {h : HistEntry}
    (hlen : ¬h.dates.length < 2) (hz : ¬cycleOf h.dates = 0)
    (hlt : ¬cycleOf h.dates ≤ elapsedOf today h.dates)
    (h75 : (cycleOf h.dates : ℚ) * (3 / 4 : ℚ) ≤ (elapsedOf today h.dates : ℚ)) :
    suggestionFor today h = some
      { name := h.name, unit := h.unit, category := h.category
        lastPurchaseDate := h.dates.getLastD 0
        avgPurchaseCycleDays := cycleOf h.dates
        reason := reasonGettingLow (cycleOf h.dates)
        priority := "low" } := by
  simp only [suggestionFor]
  rw [if_neg hlen, if_neg hz, if_neg hlt, if_pos h75]

theorem suggestionFor_early {today : Int} {h : HistEntry}
    (hlen : ¬h.dates.length < 2) (hz : ¬cycleOf h.dates = 0)
    (hlt : ¬cycleOf h.dates ≤ elapsedOf today h.dates)
    (h75 : ¬(cycleOf h.dates : ℚ) * (3 / 4 : ℚ) ≤ (elapsedOf today h.dates : ℚ)) :
    suggestionFor today h = none := by
  simp only [suggestionFor]
  rw [if_neg hlen, if_neg hz, if_neg hlt, if_neg h75]

theorem suggestionFor_fields {today : Int} {h : HistEntry} {g : SmartSuggestion}
    (hg : suggestionFor today h = some g) :
    g.name = h.name ∧ g.unit = h.unit ∧
      (g.priority = "high" ∨ g.priority = "medium" ∨ g.priority = "low") := by
  by_cases hlen : h.dates.length < 2
  · rw [suggestionFor_short hlen] at hg
    cases hg
  by_cases hz : cycleOf h.dates = 0
  · rw [suggestionFor_zero_cycle hlen hz] at hg
    cases hg
  by_cases hge : cycleOf h.dates ≤ elapsedOf today h.dates
  · rw [suggestionFor_depleted hlen hz hge] at hg
    have hgg := Option.some.inj hg
    rw [← hgg]
    refine ⟨rfl, rfl, ?_⟩
    by_cases hp : 3 < elapsedOf today h.dates - cycleOf h.dates
    · rw [if_pos hp]
      exact Or.inl rfl
    · rw [if_neg hp]
      exact Or.inr (Or.inl rfl)
  by_cases h75 : (cycleOf h.dates : ℚ) * (3 / 4 : ℚ) ≤ (elapsedOf today h.dates : ℚ)
  · rw [suggestionFor_low hlen hz hge h75] at hg
    have hgg := Option.some.inj hg
    rw [← hgg]
    exact ⟨rfl, rfl, Or.inr (Or.inr rfl)⟩
  · rw [suggestionFor_early hlen hz hge h75] at hg
    cases hg

theorem mem_getSmartSuggestions {today : Int} {s : Ledger} {g : SmartSuggestion} :
    g ∈ getSmartSuggestions today s ↔
      ∃ e ∈ itemHistory s, suggestionFor today e.2 = some g := by
  unfold getSmartSuggestions
  rw [List.mem_insertionSort, List.mem_filterMap]

theorem nodup_keys_itemHistory (s : Ledger) : (keysOf (itemHistory s)).Nodup := by
  unfold itemHistory
  exact nodup_keysOf_foldl_upsert _ _ _ [] (by simp [keysOf])

theorem itemHistory_entry_key {s : Ledger} {k : String} {h : HistEntry}
    (hmem : (k, h) ∈ itemHistory s) :
    alookup k (itemHistory s) = some h ∧ k = keyString h.name h.unit := by
  have hlook : alookup k (itemHistory s) = some h :=
    alookup_eq_some_of_mem (nodup_keys_itemHistory s) hmem
  refine ⟨hlook, ?_⟩
  have hacc : accumFold histUpd
      ((List.insertionSort dateAsc ((purchasesAll s).filter qualQty)).filter
        (fun p => decide (keyOf p = k))) none = some h := by
    rw [← hlook]
    unfold itemHistory
    rw [alookup_foldl_upsert]
    rfl
  cases hF : (List.insertionSort dateAsc ((purchasesAll s).filter qualQty)).filter
      (fun p => decide (keyOf p = k)) with
  | nil =>
    rw [hF] at hacc
    cases hacc
  | cons a t =>
    obtain ⟨first, h₀, hfst, hacc₂, _, hnm, hun, _⟩ :=
      accumFold_histUpd_char (a :: t) (List.cons_ne_nil a t)
    rw [hF] at hacc
    rw [hacc₂] at hacc
    have hh : h₀ = h := by
      injection hacc
    have hfmem : first ∈ a :: t := by
      cases hfst
      exact List.mem_cons_self a t
    have hkey : keyOf first = k := by
      have := List.of_mem_filter (hF ▸ hfmem : first ∈
        (List.insertionSort dateAsc ((purchasesAll s).filter qualQty)).filter
          (fun p => decide (keyOf p = k)))
      simpa using this
    rw [← hh, ← hkey, hnm, hun]
    rfl

theorem itemHistory_lookup (name : String) (u : MUnit) (s : Ledger) :
    (qtyGroupOf name u s = [] → alookup (keyString name u) (itemHistory s) = none) ∧
    (qtyGroupOf name u s ≠ [] →
      ∃ h₀, alookup (keyString name u) (itemHistory s) = some h₀ ∧
        h₀.name = name ∧ h₀.unit = u ∧ h₀.dates = sortedDatesOf name u s) := by
  have hperm : ((List.insertionSort dateAsc ((purchasesAll s).filter qualQty)).filter
      (matchNU name u)).Perm (qtyGroupOf name u s) :=
    (List.perm_insertionSort dateAsc ((purchasesAll s).filter qualQty)).filter _
  constructor
  · intro hempty
    rw [alookup_itemHistory]
    have hF : (List.insertionSort dateAsc ((purchasesAll s).filter qualQty)).filter
        (matchNU name u) = [] := List.Perm.eq_nil (hempty ▸ hperm)
    rw [hF]
    rfl
  · intro hne
    have hFne : (List.insertionSort dateAsc ((purchasesAll s).filter qualQty)).filter
        (matchNU name u) ≠ [] := by
      intro hF
      exact hne (List.Perm.eq_nil (hF ▸ hperm.symm))
    obtain ⟨first, h₀, hfst, hacc, hdts, hnm, hun, _⟩ :=
      accumFold_histUpd_char _ hFne
    have hfmem : first ∈ (List.insertionSort dateAsc ((purchasesAll s).filter qualQty)).filter
        (matchNU name u) := by
      cases hF : (List.insertionSort dateAsc ((purchasesAll s).filter qualQty)).filter
          (matchNU name u) with
      | nil => cases hFne hF
      | cons a t =>
        rw [hF] at hfst
        cases hfst
        exact List.mem_cons_self _ _
    have hmatch : first.item.name = name ∧ first.item.unit = u := by
      simpa [matchNU] using List.of_mem_filter hfmem
    refine ⟨h₀, ?_, hnm.trans hmatch.1, hun.trans hmatch.2, ?_⟩
    · rw [alookup_itemHistory, hacc]
    · rw [hdts]
      apply List.eq_of_perm_of_sorted (r := fun a b : Int => a ≤ b)
      · exact (hperm.map _).trans
          (List.perm_insertionSort _ ((qtyGroupOf name u s).map (fun p => p.date))).symm
      · have hsorted : List.Sorted dateAsc
            ((List.insertionSort dateAsc ((purchasesAll s).filter qualQty)).filter
              (matchNU name u)) :=
          List.Pairwise.sublist (List.filter_sublist _)
            (List.sorted_insertionSort dateAsc ((purchasesAll s).filter qualQty))
        exact List.Pairwise.map _ (fun a b hab => hab) hsorted
      · exact List.sorted_insertionSort _ _

/-- Severity rank induced by the *actual* output order of the engine:
`"medium"` sorts first, then `"low"`, then `"high"` (descending plain-string
comparison). -/
def prioRank (p : String) : Nat := if p = "medium" then 0 else if p = "low" then 1 else 2

/-- A Bought one-piece purchase line used by the suggestion examples. -/
def pieceItem (n : String) : ShoppingItem :=
  { id := "i", name := n, amount := 1, unit := MUnit.Piece, category := "c"
    status := ItemStatus.Bought, purchasedAmount := some 1, paidPrice := some 5 }

/-- Item "a" bought on days 0 and 10 (cycle 10, elapsed 10 at day 20 →
depleted/medium); item "b" bought on days 2 and 12 (cycle 10, elapsed 8 →
getting-low/low). -/
def suggLedger : Ledger :=
  { lists :=
      [{ id := "0", name := "", createdAt := 0, items := [pieceItem "a"] },
       { id := "2", name := "", createdAt := 2 * oneDay, items := [pieceItem "b"] },
       { id := "10", name := "", createdAt := 10 * oneDay, items := [pieceItem "a"] },
       { id := "12", name := "", createdAt := 12 * oneDay, items := [pieceItem "b"] }]
    customCategories := [], vendors := [], categoryVendorMap := [], itemInfoMap := [] }

unseal Rat.add Rat.mul Rat.inv Rat.sub in
/-- C3 — counterexample.  On `suggLedger` at day 20 the engine emits a
`medium` suggestion *before* a `low` one: descending lexical order on the
priority strings puts `"medium"` first (`"medium" > "low" > "high"`), so the
claim's "every 'low' before every 'medium'" is false. -/
theorem C3_counterexample :
    (getSmartSuggestions (20 * oneDay) suggLedger).map (fun g => g.priority) =
      ["medium", "low"] := by
  decide

/-- C3 (amended: the sequence is sorted by the priority label compared as a
plain string in *descending* lexical order, which places every `"medium"`
before every `"low"` and every `"low"` before every `"high"` — not the order
stated in the claim). -/
theorem C3_suggestion_ordering (today : Int) (s : Ledger) :
    List.Sorted prioDesc (getSmartSuggestions today s) ∧
    List.Pairwise (fun a b => prioRank a.priority ≤ prioRank b.priority)
      (getSmartSuggestions today s) := by
  have hsorted : List.Sorted prioDesc (getSmartSuggestions today s) :=
    List.sorted_insertionSort prioDesc _
  refine ⟨hsorted, ?_⟩
  have hmemp : ∀ g ∈ getSmartSuggestions today s,
      g.priority = "high" ∨ g.priority = "medium" ∨ g.priority = "low" := by
    intro g hg
    obtain ⟨e, _, hsug⟩ := mem_getSmartSuggestions.mp hg
    exact (suggestionFor_fields hsug).2.2
  refine List.Pairwise.imp_of_mem ?_ hsorted
  intro a b ha hb hab
  have hpa := hmemp a ha
  have hpb := hmemp b hb
  simp only [prioDesc] at hab
  rcases hpa with h₁ | h₁ | h₁ <;> rcases hpb with h₂ | h₂ | h₂ <;>
    rw [h₁, h₂] at hab ⊢ <;>
    first
      | decide
      | exact absurd hab (by decide)

/-- All suggestions for one (name, unit) pair come from the unique history
entry of its key; if that entry classifies to `none`, nothing is emitted. -/
theorem no_sug_of_entry_none (s : Ledger) (today : Int) (name : String) (u : MUnit)
    (hnone : ∀ h₀, alookup (keyString name u) (itemHistory s) = some h₀ →
      suggestionFor today h₀ = none) :
    ∀ g ∈ getSmartSuggestions today s, ¬(g.name = name ∧ g.unit = u) := by
  rintro g hg ⟨hgn, hgu⟩
  obtain ⟨⟨k, h⟩, he, hsug⟩ := mem_getSmartSuggestions.mp hg
  obtain ⟨hnm, hun, _⟩ := suggestionFor_fields hsug
  obtain ⟨hlook, hkey⟩ := itemHistory_entry_key he
  have hkey₂ : k = keyString name u := by
    rw [hkey, ← hnm, ← hun, hgn, hgu]
  rw [hkey₂] at hlook
  rw [hnone h hlook] at hsug
  cases hsug

/-- C2: per (name, unit) history, the engine emits nothing when fewer than two
with-quantity Bought purchases exist or the inferred cycle (rounded average of
the whole-day absolute gaps of the date-sorted purchase sequence) is zero;
otherwise, with `elapsed` the whole days since the most recent purchase, it
emits a depleted suggestion (priority `high` when `elapsed - cycle > 3`, else
`medium`) whenever `elapsed ≥ cycle`, a getting-low suggestion (priority `low`)
whenever `0.75·cycle ≤ elapsed < cycle`, and nothing when
`elapsed < 0.75·cycle`. -/
theorem C2_getSmartSuggestions_classification (s : Ledger) (today : Int) (name : String)
    (u : MUnit) :
    (((qtyGroupOf name u s).length < 2 ∨ cycleOf (sortedDatesOf name u s) = 0) →
      ∀ g ∈ getSmartSuggestions today s, ¬(g.name = name ∧ g.unit = u)) ∧
    (2 ≤ (qtyGroupOf name u s).length → cycleOf (sortedDatesOf name u s) ≠ 0 →
      ((cycleOf (sortedDatesOf name u s) ≤ elapsedOf today (sortedDatesOf name u s) →
        ∃ g ∈ getSmartSuggestions today s, g.name = name ∧ g.unit = u ∧
          g.avgPurchaseCycleDays = cycleOf (sortedDatesOf name u s) ∧
          g.reason = reasonDepleted (cycleOf (sortedDatesOf name u s))
            (elapsedOf today (sortedDatesOf name u s) - cycleOf (sortedDatesOf name u s)) ∧
          g.priority = (if 3 < elapsedOf today (sortedDatesOf name u s) -
              cycleOf (sortedDatesOf name u s) then "high" else "medium")) ∧
       (¬cycleOf (sortedDatesOf name u s) ≤ elapsedOf today (sortedDatesOf name u s) →
        ((cycleOf (sortedDatesOf name u s) : ℚ) * (3 / 4 : ℚ) ≤
            (elapsedOf today (sortedDatesOf name u s) : ℚ) →
          ∃ g ∈ getSmartSuggestions today s, g.name = name ∧ g.unit = u ∧
            g.avgPurchaseCycleDays = cycleOf (sortedDatesOf name u s) ∧
            g.reason = reasonGettingLow (cycleOf (sortedDatesOf name u s)) ∧
            g.priority = "low") ∧
        (¬(cycleOf (sortedDatesOf name u s) : ℚ) * (3 / 4 : ℚ) ≤
            (elapsedOf today (sortedDatesOf name u s) : ℚ) →
          ∀ g ∈ getSmartSuggestions today s, ¬(g.name = name ∧ g.unit = u))))) := by
  constructor
  · intro hdisable
    apply no_sug_of_entry_none
    intro h₀ hlook
    rcases eq_or_ne (qtyGroupOf name u s) [] with hq | hq
    · rw [(itemHistory_lookup name u s).1 hq] at hlook
      cases hlook
    · obtain ⟨h₁, hlook₁, _, _, hd₁⟩ := (itemHistory_lookup name u s).2 hq
      rw [hlook₁] at hlook
      have hh := Option.some.inj hlook
      subst hh
      rcases hdisable with hlen | hz
      · apply suggestionFor_short
        rw [hd₁]
        unfold sortedDatesOf
        rw [List.length_insertionSort, List.length_map]
        exact hlen
      · by_cases hdlen : h₁.dates.length < 2
        · exact suggestionFor_short hdlen
        · apply suggestionFor_zero_cycle hdlen
          rw [hd₁]
          exact hz
  · intro hlen2 hz
    have hq : qtyGroupOf name u s ≠ [] := by
      intro h0
      rw [h0] at hlen2
      simp at hlen2
    obtain ⟨h₀, hlook₀, hn₀, hu₀, hd₀⟩ := (itemHistory_lookup name u s).2 hq
    have hmem₀ : (keyString name u, h₀) ∈ itemHistory s := mem_of_alookup_eq_some hlook₀
    have hdlen : ¬h₀.dates.length < 2 := by
      rw [hd₀]
      unfold sortedDatesOf
      rw [List.length_insertionSort, List.length_map]
      exact not_lt.mpr hlen2
    have hcz : ¬cycleOf h₀.dates = 0 := by
      rw [hd₀]
      exact hz
    constructor
    · intro hge
      have hge₀ : cycleOf h₀.dates ≤ elapsedOf today h₀.dates := by
        rw [hd₀]
        exact hge
      refine ⟨_, mem_getSmartSuggestions.mpr
        ⟨(keyString name u, h₀), hmem₀, suggestionFor_depleted hdlen hcz hge₀⟩,
        hn₀, hu₀, ?_, ?_, ?_⟩ <;> rw [hd₀]
    · intro hlt
      have hlt₀ : ¬cycleOf h₀.dates ≤ elapsedOf today h₀.dates := by
        rw [hd₀]
        exact hlt
      constructor
      · intro h75
        have h75₀ : (cycleOf h₀.dates : ℚ) * (3 / 4 : ℚ) ≤ (elapsedOf today h₀.dates : ℚ) := by
          rw [hd₀]
          exact h75
        refine ⟨_, mem_getSmartSuggestions.mpr
          ⟨(keyString name u, h₀), hmem₀, suggestionFor_low hdlen hcz hlt₀ h75₀⟩,
          hn₀, hu₀, ?_, ?_, rfl⟩ <;> rw [hd₀]
      · intro h75
        apply no_sug_of_entry_none
        intro h₁ hlook₁
        rw [hlook₀] at hlook₁
        have hh := Option.some.inj hlook₁
        subst hh
        apply suggestionFor_early hdlen hcz hlt₀
        rw [hd₀]
        exact h75

unseal Rat.add Rat.mul Rat.inv Rat.sub in
/-- C2 — witness: item "a" of `suggLedger` at day 20 (cycle 10, elapsed 10)
produces a depleted `medium` suggestion. -/
theorem C2_witness :
    2 ≤ (qtyGroupOf "a" MUnit.Piece suggLedger).length ∧
      cycleOf (sortedDatesOf "a" MUnit.Piece suggLedger) ≠ 0 ∧
      cycleOf (sortedDatesOf "a" MUnit.Piece suggLedger) ≤
        elapsedOf (20 * oneDay) (sortedDatesOf "a" MUnit.Piece suggLedger) ∧
      ∃ g ∈ getSmartSuggestions (20 * oneDay) suggLedger,
        g.name = "a" ∧ g.unit = MUnit.Piece ∧
        g.avgPurchaseCycleDays = cycleOf (sortedDatesOf "a" MUnit.Piece suggLedger) ∧
        g.reason = reasonDepleted (cycleOf (sortedDatesOf "a" MUnit.Piece suggLedger))
          (elapsedOf (20 * oneDay) (sortedDatesOf "a" MUnit.Piece suggLedger) -
            cycleOf (sortedDatesOf "a" MUnit.Piece suggLedger)) ∧
        g.priority = (if 3 < elapsedOf (20 * oneDay) (sortedDatesOf "a" MUnit.Piece suggLedger) -
            cycleOf (sortedDatesOf "a" MUnit.Piece suggLedger) then "high" else "medium") :=
  ⟨by decide, by decide, by decide,
    (((C2_getSmartSuggestions_classification suggLedger (20 * oneDay) "a" MUnit.Piece).2
      (by decide) (by decide)).1 (by decide))⟩

/-! ## The summary engine (C8, C10) -/

/-- The claim-side view of `getSummaryData`'s considered purchases: Bought
items with a non-null `paidPrice` whose containing list's date lies in the
resolved inclusive range. -/
def summaryQual (se : Int × Int) (s : Ledger) : List Purchase :=
  (purchasesAll s).filter (fun p => qualSummary p && decide (se.1 ≤ p.date ∧ p.date ≤ se.2))

theorem flatMap_range_filter (se : Int × Int) (ls : List ShoppingList) :
    (ls.flatMap (fun list =>
      if se.1 ≤ list.createdAt ∧ list.createdAt ≤ se.2 then
        list.items.map (fun item => (⟨item, list.createdAt⟩ : Purchase))
      else [])).filter qualSummary =
    (ls.flatMap (fun l => l.items.map (fun it => (⟨it, l.createdAt⟩ : Purchase)))).filter
      (fun p => qualSummary p && decide (se.1 ≤ p.date ∧ p.date ≤ se.2)) := by
  induction ls with
  | nil => rfl
  | cons l rest ih =>
    rw [List.flatMap_cons, List.flatMap_cons, List.filter_append, List.filter_append, ih]
    congr 1
    by_cases hr : se.1 ≤ l.createdAt ∧ l.createdAt ≤ se.2
    · rw [if_pos hr]
      apply List.filter_congr
      intro p hp
      obtain ⟨it, _, rfl⟩ := List.mem_map.mp hp
      simp [hr]
    · rw [if_neg hr, List.filter_nil]
      symm
      rw [List.filter_eq_nil_iff]
      intro p hp
      obtain ⟨it, _, rfl⟩ := List.mem_map.mp hp
      simp [hr]

/-- The non-null summary result, as a function of the considered purchases. -/
def mkSummary (period : SummaryPeriod) (now : Int) (s : Ledger) : SummaryData :=
  let se := resolvePeriod period now
  let startDate := se.1
  let endDate := se.2
  let allPurchases := summaryQual se s
  let totalSpend := allPurchases.foldl (fun sum item => sum + item.item.paidPrice.getD 0) 0
  let totalItems := (jsSetDedup (allPurchases.map (fun p => p.item.name))).length
  let totalDays : ℚ := max 1 (((endDate - startDate : Int) : ℚ) / ((1000 * 3600 * 24 : Int) : ℚ))
  let avgDailySpend := totalSpend / totalDays
  let categorySpend := allPurchases.foldl
    (fun acc item =>
      upsert item.item.category (fun prev => prev.getD 0 + item.item.paidPrice.getD 0) acc) []
  let sortedCategories := List.insertionSort valDesc categorySpend
  let topCategory := sortedCategories.head?
  let vendorSpend := allPurchases.foldl
    (fun acc item =>
      if sTruthy item.item.vendorId then
        upsert (vendorNameOf s (item.item.vendorId.getD ""))
          (fun prev => prev.getD 0 + item.item.paidPrice.getD 0) acc
      else acc) []
  let topVendor := (List.insertionSort valDesc vendorSpend).head?
  let seeded := (daysList startDate endDate).foldl
    (fun m d => upsert (toJalaliDateString d) (fun _ => (0 : ℚ)) m) []
  let timeMap := allPurchases.foldl
    (fun m item =>
      upsert (toJalaliDateString item.date)
        (fun prev => prev.getD 0 + item.item.paidPrice.getD 0) m) seeded
  { kpis :=
      { totalSpend := totalSpend, totalItems := totalItems
        avgDailySpend := avgDailySpend, topCategory := topCategory, topVendor := topVendor }
    charts :=
      { spendingOverTime := { labels := timeMap.map Prod.fst, data := timeMap.map Prod.snd }
        spendingByCategory :=
          { labels := sortedCategories.map Prod.fst, data := sortedCategories.map Prod.snd } }
    periodStart := startDate, periodEnd := endDate }

theorem getSummaryData_eq (period : SummaryPeriod) (now : Int) (s : Ledger) :
    getSummaryData period now s =
      if (summaryQual (resolvePeriod period now) s).length = 0 then none
      else some (mkSummary period now s) := by
  simp only [getSummaryData, mkSummary]
  rw [flatMap_range_filter]
  rfl

theorem mkSummary_totalSpend (period : SummaryPeriod) (now : Int) (s : Ledger) :
    (mkSummary period now s).kpis.totalSpend =
      spendSum (summaryQual (resolvePeriod period now) s) := by
  simp only [mkSummary]
  rw [foldl_add_eq, zero_add]
  rfl

/-- C8: `getSummaryData` considers exactly the Bought items with a non-null
`paidPrice` (zero qualifies: the filter is an `isSome` check) whose containing
list's date lies in the resolved inclusive range — its reported total spend is
the sum of `paidPrice` over precisely those purchases — and it returns `none`
(not a zeroed object) precisely when no such purchase exists. -/
theorem C8_getSummaryData_range (period : SummaryPeriod) (now : Int) (s : Ledger) :
    (getSummaryData period now s = none ↔
      summaryQual (resolvePeriod period now) s = []) ∧
    (getSummaryData period now s ≠ none →
      reportedSpend (getSummaryData period now s) =
        spendSum (summaryQual (resolvePeriod period now) s)) := by
  rw [getSummaryData_eq]
  rcases eq_or_ne (summaryQual (resolvePeriod period now) s) [] with hq | hq
  · rw [hq]
    constructor
    · exact ⟨fun _ => rfl, fun _ => by simp⟩
    · intro h
      simp at h
  · have hlen : ¬(summaryQual (resolvePeriod period now) s).length = 0 := by
      intro h0
      exact hq (List.length_eq_zero.mp h0)
    rw [if_neg hlen]
    constructor
    · constructor
      · intro h
        cases h
      · intro h
        exact absurd h hq
    · intro _
      show (mkSummary period now s).kpis.totalSpend = _
      exact mkSummary_totalSpend period now s

unseal Rat.add Rat.mul Rat.inv Rat.sub in
/-- C8 — witness: the all-time summary two days after the epoch on the
forecast ledger sees exactly the two day-0 purchases. -/
theorem C8_witness :
    getSummaryData SummaryPeriod.all (2 * oneDay + 5) forecastLedger ≠ none ∧
      reportedSpend (getSummaryData SummaryPeriod.all (2 * oneDay + 5) forecastLedger) =
        spendSum (summaryQual (resolvePeriod SummaryPeriod.all (2 * oneDay + 5))
          forecastLedger) :=
  ⟨by decide,
    (C8_getSummaryData_range SummaryPeriod.all (2 * oneDay + 5) forecastLedger).2 (by decide)⟩

/-! Time-series mass conservation (C10). -/

theorem sum_snd_upsertAdd (k : String) (v : ℚ) :
    ∀ m : List (String × ℚ),
      ((upsert k (fun prev => prev.getD 0 + v) m).map Prod.snd).sum =
        (m.map Prod.snd).sum + v := by
  intro m
  induction m with
  | nil => simp [upsert]
  | cons e rest ih =>
    obtain ⟨k₂, v₂⟩ := e
    by_cases hk : k₂ = k
    · subst hk
      simp [upsert]
      ring
    · simp only [upsert, if_neg hk, List.map_cons, List.sum_cons, ih]
      ring

theorem mem_snd_upsert_const0 (k : String) :
    ∀ (m : List (String × ℚ)) (v : ℚ),
      v ∈ ((upsert k (fun _ => (0 : ℚ)) m).map Prod.snd) → v = 0 ∨ v ∈ m.map Prod.snd := by
  intro m
  induction m with
  | nil =>
    intro v hv
    simp only [upsert, List.map_cons, List.map_nil] at hv
    rcases List.mem_singleton.mp hv with rfl
    exact Or.inl rfl
  | cons e rest ih =>
    obtain ⟨k₂, v₂⟩ := e
    intro v hv
    by_cases hk : k₂ = k
    · simp only [upsert, if_pos hk, List.map_cons] at hv
      rcases List.mem_cons.mp hv with rfl | h
      · exact Or.inl rfl
      · exact Or.inr (by simp [h])
    · simp only [upsert, if_neg hk, List.map_cons] at hv
      rcases List.mem_cons.mp hv with rfl | h
      · exact Or.inr (by simp)
      · rcases ih v h with h₀ | h₀
        · exact Or.inl h₀
        · exact Or.inr (by simp [h₀])

theorem seed_vals_zero (key : Int → String) :
    ∀ (days : List Int) (m : List (String × ℚ)), (∀ v ∈ m.map Prod.snd, v = 0) →
      ∀ v ∈ ((days.foldl (fun m d => upsert (key d) (fun _ => (0 : ℚ)) m) m).map Prod.snd),
        v = 0 := by
  intro days
  induction days with
  | nil => intro m hm; exact hm
  | cons d rest ih =>
    intro m hm
    apply ih
    intro v hv
    rcases mem_snd_upsert_const0 (key d) m v hv with h | h
    · exact h
    · exact hm v h

theorem sum_snd_timeMap (key : Int → String) (f : Purchase → ℚ) :
    ∀ (ps : List Purchase) (m : List (String × ℚ)),
      ((ps.foldl (fun m item => upsert (key item.date) (fun prev => prev.getD 0 + f item) m)
        m).map Prod.snd).sum = (m.map Prod.snd).sum + (ps.map f).sum := by
  intro ps
  induction ps with
  | nil => intro m; simp
  | cons p rest ih =>
    intro m
    rw [List.foldl_cons, ih, sum_snd_upsertAdd, List.map_cons, List.sum_cons]
    ring

/-- C10: whenever `getSummaryData` returns a result, the daily time series adds
up to the reported total spend — every qualifying in-range purchase's
`paidPrice` lands in exactly one day bucket of the pre-seeded map. -/
theorem C10_series_mass_conservation (period : SummaryPeriod) (now : Int) (s : Ledger)
    (h : getSummaryData period now s ≠ none) :
    seriesTotal (getSummaryData period now s) = reportedSpend (getSummaryData period now s) := by
  rw [getSummaryData_eq] at h ⊢
  rcases eq_or_ne (summaryQual (resolvePeriod period now) s) [] with hq | hq
  · exfalso
    apply h
    rw [hq]
    simp
  · have hlen : ¬(summaryQual (resolvePeriod period now) s).length = 0 := by
      intro h0
      exact hq (List.length_eq_zero.mp h0)
    rw [if_neg hlen]
    show (mkSummary period now s).charts.spendingOverTime.data.sum =
      (mkSummary period now s).kpis.totalSpend
    rw [mkSummary_totalSpend]
    simp only [mkSummary]
    rw [sum_snd_timeMap]
    have hseed : ∀ v ∈ (((daysList (resolvePeriod period now).1
        (resolvePeriod period now).2).foldl
          (fun m d => upsert (toJalaliDateString d) (fun _ => (0 : ℚ)) m) []).map Prod.snd),
        v = 0 :=
      seed_vals_zero toJalaliDateString _ [] (by intro v hv; cases hv)
    rw [List.sum_eq_zero hseed, zero_add]
    rfl

unseal Rat.add Rat.mul Rat.inv Rat.sub in
/-- C10 — witness: the same concrete summary's series sums to its total
spend. -/
theorem C10_witness :
    getSummaryData SummaryPeriod.all (2 * oneDay + 5) forecastLedger ≠ none ∧
      seriesTotal (getSummaryData SummaryPeriod.all (2 * oneDay + 5) forecastLedger) =
        reportedSpend (getSummaryData SummaryPeriod.all (2 * oneDay + 5) forecastLedger) :=
  ⟨by decide,
    C10_series_mass_conservation SummaryPeriod.all (2 * oneDay + 5) forecastLedger (by decide)⟩

end Shopping
